import Mathlib

/-!
Shallow embedding of the schema-validation engine of
`express-schema-validator` (source: `src/SchemaValidator.ts`).

Modelling conventions:
* JavaScript runtime values are modelled by the inductive `JSValue`.
  Numbers are modelled by `Int` (the integer shadow of JS numbers;
  floating-point behaviour is out of scope, and every claim under
  verification only exercises integral values).
* The mutable data bag is a JS object, modelled as an association list
  inside `JSValue.vObj`; in-place mutation becomes explicit state passing:
  each checker receives the field's current value and returns the verdict,
  an optional written-back value (`none` when the source performs no
  assignment to `data[schema.name]`) and the error list.
* JS aliasing note: in the source, the array/object checkers validate the
  (parsed) sub-structure through the same object that was stored into
  `data[schema.name]`, so element/field coercions are visible in the bag
  even when the overall verdict is false.  The pure model makes this
  explicit by always returning the final sub-structure as the written
  value in those checkers.
-/

/-- Model of a JavaScript runtime value (numbers as their integer shadow). -/
inductive JSValue where
  | vUndef : JSValue
  | vNull : JSValue
  | vBool : Bool → JSValue
  | vNum : Int → JSValue
  | vStr : String → JSValue
  | vArr : List JSValue → JSValue
  | vObj : List (String × JSValue) → JSValue
deriving Repr

/-- `typeof value` for the modelled values (note `typeof null === "object"`). -/
def typeofStr : JSValue → String
  | .vUndef => "undefined"
  | .vNull => "object"
  | .vBool _ => "boolean"
  | .vNum _ => "number"
  | .vStr _ => "string"
  | .vArr _ => "object"
  | .vObj _ => "object"

/-- First-match lookup in a JS object's property list (`data[k]`, absent ↦ undefined). -/
def getPairs : List (String × JSValue) → String → JSValue
  | [], _ => .vUndef
  | (k', v) :: rest, k => if k' = k then v else getPairs rest k

/-- Property-assignment on a JS object's property list: replace the existing
entry in place, or append a new entry (JS insertion order). -/
def setPairs : List (String × JSValue) → String → JSValue → List (String × JSValue)
  | [], k, x => [(k, x)]
  | (k', v) :: rest, k, x => if k' = k then (k, x) :: rest else (k', v) :: setPairs rest k x

/-- Membership test for a property (`k in data`). -/
def hasPairs : List (String × JSValue) → String → Bool
  | [], _ => false
  | (k', _) :: rest, k => if k' = k then true else hasPairs rest k

/-- `data[k]` on an arbitrary value used as a container (only plain objects
yield properties in the model; reads on other values give undefined). -/
def getKey : JSValue → String → JSValue
  | .vObj l, k => getPairs l k
  | _, _ => JSValue.vUndef

/-- `data[k] = x` on a container value (a no-op on non-objects in the model). -/
def setKey : JSValue → String → JSValue → JSValue
  | .vObj l, k, x => .vObj (setPairs l k x)
  | d, _, _ => d

/-- `k in data` on a container value. -/
def hasKeyB : JSValue → String → Bool
  | .vObj l, k => hasPairs l k
  | _, _ => false

/-! ### Decimal rendering and parsing (the integer shadow of JS numbers) -/

/-- Decimal digit characters of `n` (most significant first); the first
argument is fuel, `fuel ≥ n` is always enough. `natToDecAux fuel 0 = []`. -/
def natToDecAux : Nat → Nat → List Char
  | 0, _ => []
  | fuel+1, n => if n = 0 then [] else natToDecAux fuel (n / 10) ++ [Char.ofNat (48 + n % 10)]

/-- Decimal rendering of a natural number, `String(n)` in JS. -/
def natToDecimal (n : Nat) : String :=
  if n = 0 then "0" else String.mk (natToDecAux n n)

/-- Decimal rendering of an integer, `String(i)` in JS. -/
def intToDecimal (i : Int) : String :=
  if i < 0 then "-" ++ natToDecimal i.natAbs else natToDecimal i.natAbs

/-- Numeric value of a decimal digit character. -/
def digitVal (c : Char) : Nat := c.toNat - 48

/-- Consume a maximal run of decimal digits, folding them onto `acc`. -/
def readDigits (acc : Nat) : List Char → Nat × List Char
  | [] => (acc, [])
  | c :: rest => if c.isDigit then readDigits (acc * 10 + digitVal c) rest else (acc, c :: rest)

/-- Leading unsigned-decimal parse: `none` when the first character is not a
digit, otherwise the value of the maximal digit prefix and the rest. -/
def parseUnsigned (cs : List Char) : Option (Nat × List Char) :=
  match cs with
  | c :: _ => if c.isDigit then some (readDigits 0 cs) else none
  | [] => none

/-- `parseInt(value)` on the already-stringified input: skip leading
whitespace, optional sign, then a maximal decimal-digit prefix; `none`
models `NaN`.  (The radix-16 `0x` prefix of JS `parseInt` is not modelled;
no claim exercises it.) -/
def jsParseIntChars (cs : List Char) : Option Int :=
  match cs.dropWhile Char.isWhitespace with
  | [] => none
  | c :: rest =>
    if c = '-' then (parseUnsigned rest).map (fun p => -(p.1 : Int))
    else if c = '+' then (parseUnsigned rest).map (fun p => (p.1 : Int))
    else (parseUnsigned (c :: rest)).map (fun p => (p.1 : Int))

def jsParseInt (s : String) : Option Int := jsParseIntChars s.data

/-- The part of `parseFloat` after the optional sign (integer shadow: a
fractional part is truncated toward zero; exponents are not modelled — no
claim exercises non-integral values). -/
def jsParseFloatBody (cs : List Char) (sgn : Int) : Option Int :=
  match cs with
  | c :: rest =>
    if c.isDigit then some (sgn * ((readDigits 0 (c :: rest)).1 : Int))
    else if c = '.' then
      match rest with
      | c2 :: _ => if c2.isDigit then some 0 else none
      | [] => none
    else none
  | [] => none

/-- `parseFloat(value)` in the integer shadow: skip leading whitespace,
optional sign, then a decimal number (a leading `.digits` form is also
accepted). -/
def jsParseFloatChars (cs : List Char) : Option Int :=
  match cs.dropWhile Char.isWhitespace with
  | [] => none
  | c :: rest =>
    if c = '-' then jsParseFloatBody rest (-1)
    else if c = '+' then jsParseFloatBody rest 1
    else jsParseFloatBody (c :: rest) 1

def jsParseFloat (s : String) : Option Int := jsParseFloatChars s.data

/-! ### `String(value)` and `JSON.stringify` -/

mutual
/-- JS `String(value)` conversion.  Arrays render as their elements joined
with `","` (`Array.prototype.join`), where null/undefined elements render
as the empty string. -/
def jsToString : JSValue → String
  | .vUndef => "undefined"
  | .vNull => "null"
  | .vBool b => if b then "true" else "false"
  | .vNum n => intToDecimal n
  | .vStr s => s
  | .vArr l => jsJoinList l
  | .vObj _ => "[object Object]"

/-- `Array.prototype.join(",")` over the model values. -/
def jsJoinList : List JSValue → String
  | [] => ""
  | x :: rest =>
    let sx := match x with
      | .vNull => ""
      | .vUndef => ""
      | _ => jsToString x
    match rest with
    | [] => sx
    | _ :: _ => sx ++ "," ++ jsJoinList rest
end

/-- Escape one character for a JSON string literal. -/
def escapeJSONChar (c : Char) : String :=
  if c = '"' then "\\\""
  else if c = '\\' then "\\\\"
  else if c = '\n' then "\\n"
  else if c = '\r' then "\\r"
  else if c = '\t' then "\\t"
  else String.singleton c

def escapeJSON (s : String) : String := String.join (s.data.map escapeJSONChar)

mutual
/-- `JSON.stringify(value)` (no spacing).  `undefined` at the top level is
unreachable from `isValid` (the presence gate filters it), and the special
casing of undefined-valued properties is not modelled. -/
def jsonStringify : JSValue → String
  | .vUndef => "undefined"
  | .vNull => "null"
  | .vBool b => if b then "true" else "false"
  | .vNum n => intToDecimal n
  | .vStr s => "\"" ++ escapeJSON s ++ "\""
  | .vArr l => "[" ++ jsonStringifyItems l ++ "]"
  | .vObj l => "\x7b" ++ jsonStringifyProps l ++ "\x7d"

def jsonStringifyItems : List JSValue → String
  | [] => ""
  | x :: rest =>
    let sx := match x with
      | .vUndef => "null"
      | _ => jsonStringify x
    match rest with
    | [] => sx
    | _ :: _ => sx ++ "," ++ jsonStringifyItems rest

def jsonStringifyProps : List (String × JSValue) → String
  | [] => ""
  | (k, v) :: rest =>
    let sx := "\"" ++ escapeJSON k ++ "\":" ++ jsonStringify v
    match rest with
    | [] => sx
    | _ :: _ => sx ++ "," ++ jsonStringifyProps rest
end

/-! ### `JSON.parse` -/

/-- JSON whitespace. -/
def isJSONWs (c : Char) : Bool :=
  c = ' ' || c = '\t' || c = '\n' || c = '\r'

def skipWs (cs : List Char) : List Char := cs.dropWhile isJSONWs

/-- Value of a hexadecimal digit character. -/
def hexVal (c : Char) : Nat :=
  if c.isDigit then c.toNat - 48 else c.toLower.toNat - 87

/-- Hexadecimal digit test. -/
def isHexDigitChar (c : Char) : Bool :=
  c.isDigit || ('a' ≤ c.toLower && c.toLower ≤ 'f')

/-- Decoded form of a single-character JSON escape, if legal. -/
def escCharMap (c : Char) : Option Char :=
  if c = '"' then some '"'
  else if c = '\\' then some '\\'
  else if c = '/' then some '/'
  else if c = 'b' then some (Char.ofNat 8)
  else if c = 'f' then some (Char.ofNat 12)
  else if c = 'n' then some '\n'
  else if c = 'r' then some '\r'
  else if c = 't' then some '\t'
  else none

/-- JSON string-literal body (after the opening quote): the decoded
characters and the remainder after the closing quote. -/
def pStringChars : List Char → Option (List Char × List Char)
  | [] => none
  | c :: rest =>
    if c = '"' then some ([], rest)
    else if c = '\\' then
      match rest with
      | [] => none
      | e :: rest2 =>
        if e = 'u' then
          match rest2 with
          | h1 :: h2 :: h3 :: h4 :: rest3 =>
            if isHexDigitChar h1 && isHexDigitChar h2 && isHexDigitChar h3 && isHexDigitChar h4 then
              (pStringChars rest3).map (fun p =>
                (Char.ofNat (((hexVal h1 * 16 + hexVal h2) * 16 + hexVal h3) * 16 + hexVal h4) :: p.1, p.2))
            else none
          | _ => none
        else
          match escCharMap e with
          | some d => (pStringChars rest2).map (fun p => (d :: p.1, p.2))
          | none => none
    else (pStringChars rest).map (fun p => (c :: p.1, p.2))

/-- JSON number (integer shadow: any fractional part is consumed and
truncated; exponents are consumed with exponent-of-ten scaling on the
integral part — no claim exercises non-integral values). -/
def pNumberTail (n : Nat) (sgn : Int) (cs : List Char) : Int × List Char :=
  let cs2 := match cs with
    | '.' :: c :: rest => if c.isDigit then (readDigits 0 (c :: rest)).2 else '.' :: c :: rest
    | _ => cs
  match cs2 with
  | e :: s :: rest =>
    if (e = 'e' || e = 'E') then
      if s.isDigit then
        let (ev, rest2) := readDigits 0 (s :: rest)
        (sgn * (n : Int) * (10 : Int) ^ ev, rest2)
      else if (s = '+' || s = '-') then
        match rest with
        | d :: _ =>
          if d.isDigit then
            let (ev, rest2) := readDigits 0 rest
            (if s = '-' then (sgn * (n : Int)) / (10 : Int) ^ ev
             else sgn * (n : Int) * (10 : Int) ^ ev, rest2)
          else (sgn * (n : Int), cs2)
        | [] => (sgn * (n : Int), cs2)
      else (sgn * (n : Int), cs2)
    else (sgn * (n : Int), cs2)
  | _ => (sgn * (n : Int), cs2)

def pNumber (cs : List Char) : Option (Int × List Char) :=
  let sgn : Int := match cs with
    | '-' :: _ => -1
    | _ => 1
  let cs1 := match cs with
    | '-' :: rest => rest
    | _ => cs
  match cs1 with
  | c :: rest =>
    if c = '0' then some (pNumberTail 0 sgn rest)
    else if c.isDigit then
      let (n, rest2) := readDigits 0 cs1
      some (pNumberTail n sgn rest2)
    else none
  | [] => none

mutual
/-- One JSON value (recursive descent with fuel; `fuel ≥ input length + 1`
is always enough for inputs the claims exercise). -/
def pValue : Nat → List Char → Option (JSValue × List Char)
  | 0, _ => none
  | fuel+1, cs =>
    match skipWs cs with
    | [] => none
    | c :: rest =>
      if c = '{' then
        match skipWs rest with
        | '}' :: rest2 => some (.vObj [], rest2)
        | cs2 => (pMembers fuel cs2).map (fun p => (.vObj p.1, p.2))
      else if c = '[' then
        match skipWs rest with
        | ']' :: rest2 => some (.vArr [], rest2)
        | cs2 => (pItems fuel cs2).map (fun p => (.vArr p.1, p.2))
      else if c = '"' then
        (pStringChars rest).map (fun p => (.vStr (String.mk p.1), p.2))
      else if c = 't' then
        match rest with
        | 'r' :: 'u' :: 'e' :: rest2 => some (.vBool true, rest2)
        | _ => none
      else if c = 'f' then
        match rest with
        | 'a' :: 'l' :: 's' :: 'e' :: rest2 => some (.vBool false, rest2)
        | _ => none
      else if c = 'n' then
        match rest with
        | 'u' :: 'l' :: 'l' :: rest2 => some (.vNull, rest2)
        | _ => none
      else
        (pNumber (c :: rest)).map (fun p => (.vNum p.1, p.2))

/-- Comma-separated JSON array items up to the closing bracket. -/
def pItems : Nat → List Char → Option (List JSValue × List Char)
  | 0, _ => none
  | fuel+1, cs =>
    match pValue fuel cs with
    | none => none
    | some (v, rest) =>
      match skipWs rest with
      | ',' :: rest2 => (pItems fuel rest2).map (fun p => (v :: p.1, p.2))
      | ']' :: rest2 => some ([v], rest2)
      | _ => none

/-- Comma-separated JSON object members up to the closing brace. -/
def pMembers : Nat → List Char → Option (List (String × JSValue) × List Char)
  | 0, _ => none
  | fuel+1, cs =>
    match skipWs cs with
    | '"' :: rest =>
      match pStringChars rest with
      | none => none
      | some (kcs, rest2) =>
        match skipWs rest2 with
        | ':' :: rest3 =>
          match pValue fuel rest3 with
          | none => none
          | some (v, rest4) =>
            match skipWs rest4 with
            | ',' :: rest5 => (pMembers fuel rest5).map (fun p => ((String.mk kcs, v) :: p.1, p.2))
            | '}' :: rest5 => some ([(String.mk kcs, v)], rest5)
            | _ => none
        | _ => none
    | _ => none
end

/-- `JSON.parse(s)`: `none` models a thrown `SyntaxError` (the whole input
must be consumed, up to trailing whitespace). -/
def jsonParse (s : String) : Option JSValue :=
  match pValue (2 * s.length + 2) s.data with
  | some (v, rest) => if (skipWs rest).isEmpty then some v else none
  | none => none

/-! ### The schema model (source lines 4–51) -/

/-- Discriminant of `NumericSchema` (`type: 'int' | 'float'`). -/
inductive NumKind where
  | int
  | float
deriving DecidableEq, Repr

/-- Symbol list of an `EnumSchema` (`symbols: string[] | number[]`). -/
inductive EnumSymbols where
  | strs : List String → EnumSymbols
  | nums : List Int → EnumSymbols
deriving DecidableEq, Repr

/-- The `Schema` tagged union.  Every variant carries `name` and `optional`
(`optional?: boolean` is modelled as `Bool`: the source only reads its
truthiness, so `undefined` and `false` coincide).  `allowNumeric?: boolean`
keeps its three-valued form because the source tests
`schema.allowNumeric !== false`. -/
inductive Schema where
  | sNum (name : String) (kind : NumKind) (min max : Option Int) (optional : Bool)
  | sString (name : String) (length min_length max_length : Option Int) (optional : Bool)
  | sBoolean (name : String) (allowNumeric : Option Bool) (optional : Bool)
  | sEnum (name : String) (symbols : EnumSymbols) (optional : Bool)
  | sArray (name : String) (elementType : Schema) (optional : Bool)
  | sObject (name : String) (fields : List Schema) (optional : Bool)
deriving Repr

def schemaName : Schema → String
  | .sNum name .. => name
  | .sString name .. => name
  | .sBoolean name .. => name
  | .sEnum name .. => name
  | .sArray name .. => name
  | .sObject name .. => name

def numKindStr : NumKind → String
  | .int => "int"
  | .float => "float"

/-- The schema's `type` discriminant string (used in the `type` field of a
recorded error). -/
def schemaTypeStr : Schema → String
  | .sNum _ kind .. => numKindStr kind
  | .sString .. => "string"
  | .sBoolean .. => "boolean"
  | .sEnum .. => "enum"
  | .sArray .. => "array"
  | .sObject .. => "object"

def schemaOptional : Schema → Bool
  | .sNum _ _ _ _ opt => opt
  | .sString _ _ _ _ opt => opt
  | .sBoolean _ _ opt => opt
  | .sEnum _ _ opt => opt
  | .sArray _ _ opt => opt
  | .sObject _ _ opt => opt

/-- `schema.name = n` (the only schema field the source ever writes — in the
array checker, on the cloned element schema). -/
def setName : Schema → String → Schema
  | .sNum _ kind min max opt, n => .sNum n kind min max opt
  | .sString _ a b c opt, n => .sString n a b c opt
  | .sBoolean _ an opt, n => .sBoolean n an opt
  | .sEnum _ sym opt, n => .sEnum n sym opt
  | .sArray _ et opt, n => .sArray n et opt
  | .sObject _ f opt, n => .sObject n f opt

mutual
/-- Name-insensitive structural size, the termination measure of the
validator (the element-schema clone changes only the name). -/
def schemaSize : Schema → Nat
  | .sNum .. => 1
  | .sString .. => 1
  | .sBoolean .. => 1
  | .sEnum .. => 1
  | .sArray _ et _ => schemaSize et + 2
  | .sObject _ fields _ => schemaListSize fields + 2

def schemaListSize : List Schema → Nat
  | [] => 0
  | s :: rest => schemaSize s + 1 + schemaListSize rest
end

theorem schemaSize_setName (s : Schema) (n : String) : schemaSize (setName s n) = schemaSize s := by
  cases s <;> simp [setName, schemaSize]

/-! ### Error records and truthiness helpers -/

structure SchemaError where
  name : String
  type : String
  value : JSValue
  description : String
deriving Repr

/-- `path.endsWith('[')`: the last character is an open bracket. -/
def endsWithOpenBracket (s : String) : Bool :=
  match s.data.getLast? with
  | some c => c = '['
  | none => false

/-- The error-path builder, the expression
`!path ? name : (path.endsWith('[') ? path + name + ']' : path + '.' + name)`
appearing verbatim at source line 100 (`pushError`) and line 252 (the
object checker's `_path`). -/
def buildPath (path name : String) : String :=
  if path = "" then name
  else if endsWithOpenBracket path then path ++ name ++ "]"
  else path ++ "." ++ name

/-- `pushError` (source lines 98–107). -/
def pushError (errors : List SchemaError) (path name ty : String) (value : JSValue)
    (desc : String) : List SchemaError :=
  errors ++ [{ name := buildPath path name, type := ty, value := value, description := desc }]

/-- Truthiness of `schema.min || schema.min === 0` (source lines 118, 123,
152, 157): true exactly when the bound is present — a literal `0` bound is
a real bound. -/
def numBoundActive (b : Option Int) : Bool :=
  match b with
  | some m => decide (m ≠ 0) || decide (m = 0)
  | none => false

/-- `p < bound` against a possibly-absent bound. -/
def ltOpt (p : Int) (b : Option Int) : Bool :=
  match b with
  | some m => decide (p < m)
  | none => false

/-- `p > bound` against a possibly-absent bound. -/
def gtOpt (p : Int) (b : Option Int) : Bool :=
  match b with
  | some m => decide (p > m)
  | none => false

/-- `p != bound` against a possibly-absent bound. -/
def neOpt (p : Int) (b : Option Int) : Bool :=
  match b with
  | some m => decide (p ≠ m)
  | none => false

/-- Plain truthiness of `schema.length` (source line 147): a `0` exact-length
bound is falsy and therefore skipped (unlike the min/max bounds). -/
def lengthTruthy (b : Option Int) : Bool :=
  match b with
  | some m => decide (m ≠ 0)
  | none => false

/-- The boolean checker's `allowedValues` (source lines 169–172). -/
def allowedBoolValues (allowNumeric : Option Bool) : List JSValue :=
  [.vBool true, .vBool false, .vStr "true", .vStr "false"] ++
    (if allowNumeric ≠ some false then [.vNum 0, .vNum 1, .vStr "0", .vStr "1"] else [])

/-- Strict (`===` / SameValueZero) equality against primitive literals;
arrays and objects are never `===`-equal to a literal. -/
def jvPrimEq (a b : JSValue) : Bool :=
  match a, b with
  | .vBool x, .vBool y => x == y
  | .vNum x, .vNum y => x == y
  | .vStr x, .vStr y => x == y
  | .vNull, .vNull => true
  | .vUndef, .vUndef => true
  | _, _ => false

/-- `list.includes(value)` over primitive literals. -/
def includesPrim (l : List JSValue) (v : JSValue) : Bool := l.any (fun x => jvPrimEq x v)

/-- `value === 'true' || value === '1' || value` (source line 178).  JS `||`
returns its operand, so the result is the boolean `true` for `'true'`/`'1'`
and the ORIGINAL value otherwise — a real boolean only when the value
already was one. -/
def boolCoerce (v : JSValue) : JSValue :=
  match v with
  | .vStr s => if s = "true" || s = "1" then .vBool true else .vStr s
  | _ => v

/-- `schema.symbols.includes(value)` (source line 191): strict same-type
membership, no coercion — a numeric string never matches number symbols. -/
def symContains : EnumSymbols → JSValue → Bool
  | .strs l, .vStr s => l.contains s
  | .nums l, .vNum n => l.contains n
  | _, _ => false

/-- `schema.symbols.join(', ')` (source line 194). -/
def symJoin : EnumSymbols → String
  | .strs l => String.intercalate ", " l
  | .nums l => String.intercalate ", " (l.map intToDecimal)

/-- `value === null || value === undefined` part of the presence gate. -/
def isNullOrUndef : JSValue → Bool
  | .vNull => true
  | .vUndef => true
  | _ => false

/-- `schema.type == 'int' ? parseInt(value) : parseFloat(value)` (source
line 111). -/
def parseByKind (kind : NumKind) (v : JSValue) : Option Int :=
  match kind with
  | .int => jsParseInt (jsToString v)
  | .float => jsParseFloat (jsToString v)

/-- The string checker's working value: the raw string, or the
JSON-stringified form of a non-string (source lines 141–145). -/
def strOfVal (v : JSValue) : String :=
  match v with
  | .vStr t => t
  | _ => jsonStringify v

/-- `NumberTypeChecker` (source lines 109–130), value-factored. -/
def checkNumVal (name : String) (kind : NumKind) (min max : Option Int) (v : JSValue)
    (errors : List SchemaError) (path : String) : Bool × Option JSValue × List SchemaError :=
  match parseByKind kind v with
  | none => (false, none, pushError errors path name (numKindStr kind) v "not a number")
  | some p =>
    if numBoundActive min && ltOpt p min then
      (false, none, pushError errors path name (numKindStr kind) v "less than min")
    else if numBoundActive max && gtOpt p max then
      (false, none, pushError errors path name (numKindStr kind) v "greater than max")
    else (true, some (.vNum p), errors)

/-- `TypeChecker['string']` (source lines 140–164), value-factored.  A
non-string value is stringified first; the stringified value is measured,
recorded in errors, and written back. -/
def checkStringVal (name : String) (length min_length max_length : Option Int) (v : JSValue)
    (errors : List SchemaError) (path : String) : Bool × Option JSValue × List SchemaError :=
  let sv := strOfVal v
  if lengthTruthy length && neOpt (sv.length : Int) length then
    (false, none, pushError errors path name "string" (.vStr sv) "length not match")
  else if numBoundActive min_length && ltOpt (sv.length : Int) min_length then
    (false, none, pushError errors path name "string" (.vStr sv) "length less than min")
  else if numBoundActive max_length && gtOpt (sv.length : Int) max_length then
    (false, none, pushError errors path name "string" (.vStr sv) "length greater than max")
  else (true, some (.vStr sv), errors)

/-- `TypeChecker['boolean']` (source lines 166–181), value-factored. -/
def checkBooleanVal (name : String) (allowNumeric : Option Bool) (v : JSValue)
    (errors : List SchemaError) (path : String) : Bool × Option JSValue × List SchemaError :=
  if !(includesPrim (allowedBoolValues allowNumeric) v) then
    (false, none, pushError errors path name "boolean" v "not boolean")
  else (true, some (boolCoerce v), errors)

/-- `TypeChecker['enum']` (source lines 183–199), value-factored.  No
coercion: the enum checker never writes. -/
def checkEnumVal (name : String) (symbols : EnumSymbols) (v : JSValue)
    (errors : List SchemaError) (path : String) : Bool × Option JSValue × List SchemaError :=
  if typeofStr v ≠ "number" ∧ typeofStr v ≠ "string" then
    (false, none, pushError errors path name "enum" v "not number or string")
  else if !(symContains symbols v) then
    (false, none,
      pushError errors path name "enum" v
        ("invalid symbol, valid symbols : [" ++ symJoin symbols ++ "]"))
  else (true, none, errors)

/-- `Array.isArray` as a projection. -/
def asArray : JSValue → Option (List JSValue)
  | .vArr l => some l
  | _ => none

/-- The array checker's `value` after the conditional JSON.parse
reassignment (`if (!Array.isArray(value)) { if string: try { value =
JSON.parse(value) } catch {} }`, source lines 205–211). -/
def arrayCoerced (v : JSValue) : JSValue :=
  match v with
  | .vArr l => .vArr l
  | .vStr str =>
    (match jsonParse str with
      | some w => w
      | none => .vStr str)
  | _ => v

/-- The object checker's `value` after the conditional JSON.parse
reassignment (source lines 237–243). -/
def objectCoerced (v : JSValue) : JSValue :=
  if typeofStr v ≠ "object" then
    (match v with
      | .vStr str =>
        (match jsonParse str with
          | some w => w
          | none => .vStr str)
      | _ => v)
  else v

/-! ### The validator (source lines 109–283)

Every checker in the source touches the bag only through
`data[schema.name]`, so the model factors that access out: `checkVal`
receives the field's current value and returns
`(verdict, written-back value if the source assigns data[schema.name],
errors)`.  `isValidOne` performs the container read/write.

Aliasing note: the array and object checkers of the source validate the
(parsed) sub-structure through the very object stored in
`data[schema.name]`, so element/field coercions are visible in the bag even
when the checker's verdict is false; the model therefore always returns the
final sub-structure as the written value in those two checkers. -/

mutual
/-- `NumberTypeChecker` and the `TypeChecker` table (source lines 109–255). -/
def checkVal (s : Schema) (v : JSValue) (errors : List SchemaError) (path : String) :
    Bool × Option JSValue × List SchemaError :=
  match s with
  | .sNum name kind min max _ => checkNumVal name kind min max v errors path
  | .sString name length min_length max_length _ =>
    checkStringVal name length min_length max_length v errors path
  | .sBoolean name allowNumeric _ => checkBooleanVal name allowNumeric v errors path
  | .sEnum name symbols _ => checkEnumVal name symbols v errors path
  | .sArray name et _ =>
    -- source lines 201–232
    match asArray (arrayCoerced v) with
    | some l =>
      let epath := if path = "" then name ++ "[" else path ++ "." ++ name ++ "["
      let r := checkElems et l 0 true errors epath
      (r.1, some (.vArr r.2.1), r.2.2)
    | none => (false, none, pushError errors path name "array" (arrayCoerced v) "array expected")
  | .sObject name fields _ =>
    -- source lines 234–254
    if typeofStr (objectCoerced v) ≠ "object" then
      (false, none, pushError errors path name "object" (objectCoerced v) "object expected")
    else
      let opath := buildPath path name
      let r := isValidSeq fields true (objectCoerced v) errors opath
      (r.1, some r.2.1, r.2.2)
termination_by (4 * schemaSize s, 0)
decreasing_by
  all_goals simp_wf
  · apply Prod.Lex.left
    simp [schemaSize]
    omega
  · apply Prod.Lex.left
    simp [schemaSize]
    omega

/-- The single-schema branch of `isValid` (source lines 274–282): presence
gate, optional handling, dispatch to the matching checker. -/
def isValidOne (s : Schema) (data : JSValue) (errors : List SchemaError) (path : String) :
    Bool × JSValue × List SchemaError :=
  if !(hasKeyB data (schemaName s)) || isNullOrUndef (getKey data (schemaName s)) then
    if schemaOptional s then (true, data, errors)
    else (false, data,
      pushError errors path (schemaName s) (schemaTypeStr s) (getKey data (schemaName s)) "not found")
  else
    let r := checkVal s (getKey data (schemaName s)) errors path
    (r.1,
      match r.2.1 with
      | some w => setKey data (schemaName s) w
      | none => data,
      r.2.2)
termination_by (4 * schemaSize s + 1, 0)
decreasing_by
  apply Prod.Lex.left
  omega

/-- The `Schema[]` loop of `isValid` (source lines 266–271).  The body is
`valid &&= isValid(entry, ...)`; `&&=` short-circuits, so once `valid` is
false the remaining iterations evaluate nothing. -/
def isValidSeq (l : List Schema) (valid : Bool) (data : JSValue) (errors : List SchemaError)
    (path : String) : Bool × JSValue × List SchemaError :=
  match l with
  | [] => (valid, data, errors)
  | s :: rest =>
    if valid then
      let r := isValidOne s data errors path
      isValidSeq rest r.1 r.2.1 r.2.2 path
    else isValidSeq rest false data errors path
termination_by (4 * schemaListSize l + 5, 0)
decreasing_by
  all_goals simp_wf
  all_goals apply Prod.Lex.left
  all_goals simp [schemaListSize]
  all_goals omega

/-- The array element loop (source lines 219–229).  The source clones
`schema.elementType` once per call (`_.assign({}, schema.elementType)`) and
rewrites the clone's `name` to the element index before each dispatch; the
name is fully overwritten on every iteration and nothing else of the clone
is ever written, so the clone's state at iteration `i` is exactly
`setName elementType (toString i)`, which the model constructs directly.
The dispatch goes straight to the type checker (no presence gate for
elements), and `valid &&= ...` short-circuits here too. -/
def checkElems (et : Schema) (elems : List JSValue) (i : Nat) (valid : Bool)
    (errors : List SchemaError) (epath : String) : Bool × List JSValue × List SchemaError :=
  if h : i < elems.length then
    if valid then
      let clone := setName et (natToDecimal i)
      let r := checkVal clone (elems.getD i .vUndef) errors epath
      let elems2 := match r.2.1 with
        | some w => elems.set i w
        | none => elems
      checkElems et elems2 (i+1) r.1 r.2.2 epath
    else checkElems et elems (i+1) false errors epath
  else (valid, elems, errors)
termination_by (4 * schemaSize et + 2, elems.length - i)
decreasing_by
  all_goals simp_wf
  · apply Prod.Lex.left
    cases et <;> simp [setName, schemaSize] <;> omega
  · apply Prod.Lex.right
    split <;> (try simp only [List.length_set]) <;> omega
  · apply Prod.Lex.right
    omega
end

/-- `isValid` on a `Schema[]` (source lines 265–272), the engine's entry
point: `valid` starts `true` and the loop folds `valid &&= isValid(entry, …)`. -/
def isValid (schema : List Schema) (data : JSValue) (errors : List SchemaError)
    (path : String) : Bool × JSValue × List SchemaError :=
  isValidSeq schema true data errors path

/-! ### Predicates used by the claims -/

/-- Non-container schema kinds (the primitive and enum checkers). -/
def isPrimitiveSchema : Schema → Bool
  | .sArray .. => false
  | .sObject .. => false
  | _ => true

mutual
/-- Sibling field names are duplicate-free at every nesting level (the
spec's §3 invariant: "a Schema's `name` is unique within its containing
sequence"). -/
def uniqueNamesB : Schema → Bool
  | .sArray _ et _ => uniqueNamesB et
  | .sObject _ fields _ => uniqueNamesListB fields
  | _ => true

def uniqueNamesListB : List Schema → Bool
  | [] => true
  | s :: rest =>
    !(rest.map schemaName).contains (schemaName s) && uniqueNamesB s && uniqueNamesListB rest
end

mutual
/-- No `null` occurs in the value, at the root or nested inside arrays or
object properties. -/
def deepNoNullB : JSValue → Bool
  | .vNull => false
  | .vArr l => deepNoNullListB l
  | .vObj l => deepNoNullPairsB l
  | _ => true

def deepNoNullListB : List JSValue → Bool
  | [] => true
  | x :: rest => deepNoNullB x && deepNoNullListB rest

def deepNoNullPairsB : List (String × JSValue) → Bool
  | [] => true
  | (_, x) :: rest => deepNoNullB x && deepNoNullPairsB rest
end

/-- The values stored in an object container are null-free (the
re-validation hypothesis of C8: a null coerced into a presence-gated slot
fails the gate on the second run). -/
def valuesNoNullB (d : JSValue) : Bool :=
  match d with
  | .vObj l => deepNoNullPairsB l
  | _ => true

/-- C8 idempotence statement for one checker call: a successful check, re-run
on the value it wrote (null-free), succeeds again with the same write and no
new errors. -/
def IdValP (s : Schema) : Prop :=
  ∀ v e p w, uniqueNamesB s = true → checkVal s v e p = (true, w, e) →
    deepNoNullB (w.getD v) = true → checkVal s (w.getD v) e p = (true, w, e)

/-- C8 idempotence statement for the array element loop. -/
def IdLoopP (et : Schema) : Prop :=
  ∀ elems i e p l2, uniqueNamesB et = true → checkElems et elems i true e p = (true, l2, e) →
    (∀ x ∈ l2, deepNoNullB x = true) → checkElems et l2 i true e p = (true, l2, e)

/-- C8 idempotence statement for a schema sequence. -/
def IdSeqP (l : List Schema) : Prop :=
  ∀ d e p d2, uniqueNamesListB l = true → isValidSeq l true d e p = (true, d2, e) →
    valuesNoNullB d2 = true → isValidSeq l true d2 e p = (true, d2, e)

/-- Error-sink monotonicity statement for one checker call: the input error
list is always a prefix of the output. -/
def MonoValP (s : Schema) : Prop :=
  ∀ v e p, ∃ t, (checkVal s v e p).2.2 = e ++ t

/-- Error-sink monotonicity statement for the array element loop. -/
def MonoLoopP (et : Schema) : Prop :=
  ∀ elems i valid e p, ∃ t, (checkElems et elems i valid e p).2.2 = e ++ t

/-- Error-sink monotonicity statement for a schema sequence. -/
def MonoSeqP (l : List Schema) : Prop :=
  ∀ valid d e p, ∃ t, (isValidSeq l valid d e p).2.2 = e ++ t

/-! ## Helper lemmas: association-list containers -/

theorem getPairs_setPairs_self (l : List (String × JSValue)) (k : String) (x : JSValue) :
    getPairs (setPairs l k x) k = x := by
  induction l with
  | nil => simp [setPairs, getPairs]
  | cons h t ih =>
    rcases h with ⟨k', v⟩
    by_cases hk : k' = k <;> simp [setPairs, getPairs, hk, ih]

theorem getPairs_setPairs_ne (l : List (String × JSValue)) (k k' : String) (x : JSValue)
    (h : k' ≠ k) : getPairs (setPairs l k x) k' = getPairs l k' := by
  have h2 : k ≠ k' := Ne.symm h
  induction l with
  | nil => simp [setPairs, getPairs, h2]
  | cons hd t ih =>
    rcases hd with ⟨k0, v⟩
    by_cases hk : k0 = k
    · subst hk
      simp [setPairs, getPairs, h2]
    · simp only [setPairs, hk, if_false, getPairs]
      by_cases hk' : k0 = k' <;> simp [hk', ih]

theorem hasPairs_setPairs_self (l : List (String × JSValue)) (k : String) (x : JSValue) :
    hasPairs (setPairs l k x) k = true := by
  induction l with
  | nil => simp [setPairs, hasPairs]
  | cons h t ih =>
    rcases h with ⟨k', v⟩
    by_cases hk : k' = k <;> simp [setPairs, hasPairs, hk, ih]

theorem hasPairs_setPairs_ne (l : List (String × JSValue)) (k k' : String) (x : JSValue)
    (h : k' ≠ k) : hasPairs (setPairs l k x) k' = hasPairs l k' := by
  have h2 : k ≠ k' := Ne.symm h
  induction l with
  | nil => simp [setPairs, hasPairs, h2]
  | cons hd t ih =>
    rcases hd with ⟨k0, v⟩
    by_cases hk : k0 = k
    · subst hk
      simp [setPairs, hasPairs, h2]
    · simp only [setPairs, hk, if_false, hasPairs]
      by_cases hk' : k0 = k' <;> simp [hk', ih]

theorem setPairs_getPairs_self (l : List (String × JSValue)) (k : String)
    (h : hasPairs l k = true) : setPairs l k (getPairs l k) = l := by
  induction l with
  | nil => simp [hasPairs] at h
  | cons hd t ih =>
    rcases hd with ⟨k0, v⟩
    by_cases hk : k0 = k
    · subst hk
      simp [setPairs, getPairs]
    · simp [hasPairs, hk] at h
      simp [setPairs, getPairs, hk, ih h]

theorem hasKeyB_obj (d : JSValue) (k : String) (h : hasKeyB d k = true) :
    ∃ l, d = .vObj l := by
  cases d <;> simp_all [hasKeyB]

theorem getKey_setKey_self (d : JSValue) (k : String) (x : JSValue) (h : hasKeyB d k = true) :
    getKey (setKey d k x) k = x := by
  obtain ⟨l, rfl⟩ := hasKeyB_obj d k h
  simp [setKey, getKey, getPairs_setPairs_self]

theorem hasKeyB_setKey_self (d : JSValue) (k : String) (x : JSValue) (h : hasKeyB d k = true) :
    hasKeyB (setKey d k x) k = true := by
  obtain ⟨l, rfl⟩ := hasKeyB_obj d k h
  simp [setKey, hasKeyB, hasPairs_setPairs_self]

theorem getKey_setKey_ne (d : JSValue) (k k' : String) (x : JSValue) (h : k' ≠ k) :
    getKey (setKey d k x) k' = getKey d k' := by
  cases d <;> simp [setKey, getKey, getPairs_setPairs_ne _ _ _ _ h]

theorem hasKeyB_setKey_ne (d : JSValue) (k k' : String) (x : JSValue) (h : k' ≠ k) :
    hasKeyB (setKey d k x) k' = hasKeyB d k' := by
  cases d <;> simp [setKey, hasKeyB, hasPairs_setPairs_ne _ _ _ _ h]

theorem setKey_getKey_self (d : JSValue) (k : String) (h : hasKeyB d k = true) :
    setKey d k (getKey d k) = d := by
  obtain ⟨l, rfl⟩ := hasKeyB_obj d k h
  simp [setKey, getKey, setPairs_getPairs_self l k (by simpa [hasKeyB] using h)]

theorem typeofStr_setKey (d : JSValue) (k : String) (x : JSValue) :
    typeofStr (setKey d k x) = typeofStr d := by
  cases d <;> rfl

/-! ## Helper lemmas: list element access -/

theorem getD_set_self (l : List JSValue) (i : Nat) (x d0 : JSValue) (h : i < l.length) :
    (l.set i x).getD i d0 = x := by
  induction l generalizing i with
  | nil => simp at h
  | cons hd t ih =>
    cases i with
    | zero => simp [List.set, List.getD]
    | succ j =>
      simp only [List.set, List.length_cons] at h ⊢
      simpa [List.getD] using ih j (by omega)

theorem getD_set_ne (l : List JSValue) (i j : Nat) (x d0 : JSValue) (h : j ≠ i) :
    (l.set i x).getD j d0 = l.getD j d0 := by
  induction l generalizing i j with
  | nil => simp [List.set]
  | cons hd t ih =>
    cases i with
    | zero =>
      cases j with
      | zero => exact absurd rfl h
      | succ j' => simp [List.set, List.getD]
    | succ i' =>
      cases j with
      | zero => simp [List.set, List.getD]
      | succ j' => simpa [List.set, List.getD] using ih i' j' (by omega)

theorem set_getD_self (l : List JSValue) (i : Nat) (d0 : JSValue) (h : i < l.length) :
    l.set i (l.getD i d0) = l := by
  induction l generalizing i with
  | nil => simp at h
  | cons hd t ih =>
    cases i with
    | zero => simp [List.set, List.getD]
    | succ j =>
      simp only [List.length_cons] at h
      simpa [List.set, List.getD] using ih j (by omega)

/-! ## Helper lemmas: decimal round trip -/

theorem digitChar_spec (d : Nat) (h : d < 10) :
    (Char.ofNat (48 + d)).isDigit = true ∧ (Char.ofNat (48 + d)).isWhitespace = false ∧
      (Char.ofNat (48 + d)) ≠ '-' ∧ (Char.ofNat (48 + d)) ≠ '+' ∧
      digitVal (Char.ofNat (48 + d)) = d := by
  interval_cases d <;> exact ⟨by decide, by decide, by decide, by decide, by decide⟩

theorem natToDecAux_all_digits (fuel : Nat) :
    ∀ n c, c ∈ natToDecAux fuel n →
      c.isDigit = true ∧ c.isWhitespace = false ∧ c ≠ '-' ∧ c ≠ '+' := by
  induction fuel with
  | zero => intro n c hc; simp [natToDecAux] at hc
  | succ fuel ih =>
    intro n c hc
    by_cases hn : n = 0
    · simp [natToDecAux, hn] at hc
    · simp only [natToDecAux, hn, if_false, List.mem_append, List.mem_singleton] at hc
      rcases hc with hc | hc
      · exact ih _ c hc
      · subst hc
        obtain ⟨h1, h2, h3, h4, _⟩ := digitChar_spec (n % 10) (Nat.mod_lt _ (by norm_num))
        exact ⟨h1, h2, h3, h4⟩

theorem readDigits_append_digits (xs : List Char) :
    ∀ acc ys, (∀ c ∈ xs, c.isDigit = true) →
      readDigits acc (xs ++ ys) = readDigits (xs.foldl (fun a c => a * 10 + digitVal c) acc) ys := by
  induction xs with
  | nil => intro acc ys _; simp
  | cons c t ih =>
    intro acc ys hdig
    have hc : c.isDigit = true := hdig c (by simp)
    simp only [List.cons_append, readDigits, hc, if_true, List.foldl_cons]
    exact ih _ ys (fun c' hc' => hdig c' (by simp [hc']))

theorem natToDecAux_foldl (fuel : Nat) :
    ∀ n acc, n ≤ fuel →
      (natToDecAux fuel n).foldl (fun a c => a * 10 + digitVal c) acc
        = acc * 10 ^ (natToDecAux fuel n).length + n := by
  induction fuel with
  | zero =>
    intro n acc hn
    interval_cases n
    simp [natToDecAux]
  | succ fuel ih =>
    intro n acc hn
    by_cases h0 : n = 0
    · simp [natToDecAux, h0]
    · have hdiv : n / 10 ≤ fuel := by
        have : n / 10 < n := Nat.div_lt_self (Nat.pos_of_ne_zero h0) (by norm_num)
        omega
      obtain ⟨_, _, _, _, hval⟩ := digitChar_spec (n % 10) (Nat.mod_lt _ (by norm_num))
      simp only [natToDecAux, h0, if_false, List.foldl_append, List.foldl_cons, List.foldl_nil,
        List.length_append, List.length_cons, List.length_nil, ih _ acc hdiv, hval]
      have hdm := Nat.div_add_mod n 10
      have hrw : (acc * 10 ^ (natToDecAux fuel (n / 10)).length + n / 10) * 10 + n % 10
          = acc * 10 ^ ((natToDecAux fuel (n / 10)).length + 1) + (10 * (n / 10) + n % 10) := by
        rw [pow_succ]
        ring
      rw [hrw, hdm]

theorem natToDecAux_ne_nil (fuel n : Nat) (hpos : 0 < n) (hle : n ≤ fuel) :
    natToDecAux fuel n ≠ [] := by
  cases fuel with
  | zero => omega
  | succ fuel =>
    have h0 : n ≠ 0 := by omega
    simp only [natToDecAux, h0, if_false]
    simp

theorem readDigits_natToDecAux (n : Nat) (hpos : 0 < n) :
    readDigits 0 (natToDecAux n n) = (n, []) := by
  have hfold := natToDecAux_foldl n n 0 le_rfl
  have hall := fun c hc => (natToDecAux_all_digits n n c hc).1
  have := readDigits_append_digits (natToDecAux n n) 0 [] hall
  simp only [List.append_nil] at this
  rw [this, hfold]
  simp [readDigits]

theorem parseUnsigned_natToDecAux (n : Nat) (hpos : 0 < n) :
    parseUnsigned (natToDecAux n n) = some (n, []) := by
  obtain ⟨c, cs, hcons⟩ := List.exists_cons_of_ne_nil (natToDecAux_ne_nil n n hpos le_rfl)
  have hc := natToDecAux_all_digits n n c (by rw [hcons]; simp)
  have hrd : readDigits 0 (natToDecAux n n) = (n, []) := readDigits_natToDecAux n hpos
  rw [hcons] at hrd ⊢
  simp only [parseUnsigned, hc.1, if_true, hrd]

theorem natToDecAux_dropWhile_ws (n : Nat) (hpos : 0 < n) :
    (natToDecAux n n).dropWhile Char.isWhitespace = natToDecAux n n := by
  obtain ⟨c, cs, hcons⟩ := List.exists_cons_of_ne_nil (natToDecAux_ne_nil n n hpos le_rfl)
  have hc := natToDecAux_all_digits n n c (by rw [hcons]; simp)
  rw [hcons, List.dropWhile_cons, hc.2.1]
  simp

theorem natToDecAux_head_not_sign (n : Nat) (hpos : 0 < n) (c : Char) (cs : List Char)
    (hcons : natToDecAux n n = c :: cs) : c ≠ '-' ∧ c ≠ '+' ∧ c.isDigit = true := by
  have hc := natToDecAux_all_digits n n c (by rw [hcons]; simp)
  exact ⟨hc.2.2.1, hc.2.2.2, hc.1⟩

theorem jsParseInt_natToDecimal (n : Nat) : jsParseInt (natToDecimal n) = some (n : Int) := by
  by_cases h : n = 0
  · subst h
    decide
  · have hpos : 0 < n := Nat.pos_of_ne_zero h
    obtain ⟨c, cs, hcons⟩ := List.exists_cons_of_ne_nil (natToDecAux_ne_nil n n hpos le_rfl)
    obtain ⟨hm, hp, _⟩ := natToDecAux_head_not_sign n hpos c cs hcons
    have hdrop := natToDecAux_dropWhile_ws n hpos
    have hpu := parseUnsigned_natToDecAux n hpos
    have hdata : (natToDecimal n).data = natToDecAux n n := by
      simp [natToDecimal, h]
    rw [jsParseInt, hdata]
    rw [jsParseIntChars, hdrop, hcons]
    simp only [if_neg hm, if_neg hp]
    rw [← hcons, hpu]
    simp

theorem jsParseInt_intToDecimal (i : Int) : jsParseInt (intToDecimal i) = some i := by
  by_cases hneg : i < 0
  · have hpos : 0 < i.natAbs := by omega
    have hne : i.natAbs ≠ 0 := by omega
    obtain ⟨c, cs, hcons⟩ :=
      List.exists_cons_of_ne_nil (natToDecAux_ne_nil i.natAbs i.natAbs hpos le_rfl)
    have hpu := parseUnsigned_natToDecAux i.natAbs hpos
    have hdata : (intToDecimal i).data = '-' :: natToDecAux i.natAbs i.natAbs := by
      simp [intToDecimal, hneg, natToDecimal, hne, String.data_append]
    rw [jsParseInt, hdata]
    rw [jsParseIntChars]
    rw [List.dropWhile_cons]
    have hws : ('-'.isWhitespace) = false := by decide
    simp only [hws, Bool.false_eq_true, if_false, if_pos rfl]
    rw [hpu]
    show some (-(i.natAbs : Int)) = some i
    congr 1
    omega
  · have hnn : 0 ≤ i := by omega
    have hdata : intToDecimal i = natToDecimal i.natAbs := by
      simp [intToDecimal, hneg]
    rw [hdata, jsParseInt_natToDecimal]
    congr 1
    omega

theorem jsParseFloat_intToDecimal (i : Int) : jsParseFloat (intToDecimal i) = some i := by
  by_cases hneg : i < 0
  · have hpos : 0 < i.natAbs := by omega
    have hne : i.natAbs ≠ 0 := by omega
    obtain ⟨c, cs, hcons⟩ :=
      List.exists_cons_of_ne_nil (natToDecAux_ne_nil i.natAbs i.natAbs hpos le_rfl)
    obtain ⟨_, _, hdig⟩ := natToDecAux_head_not_sign i.natAbs hpos c cs hcons
    have hrd : readDigits 0 (natToDecAux i.natAbs i.natAbs) = (i.natAbs, []) :=
      readDigits_natToDecAux i.natAbs hpos
    have hdata : (intToDecimal i).data = '-' :: natToDecAux i.natAbs i.natAbs := by
      simp [intToDecimal, hneg, natToDecimal, hne, String.data_append]
    rw [jsParseFloat, hdata]
    rw [jsParseFloatChars]
    rw [List.dropWhile_cons]
    have hws : ('-'.isWhitespace) = false := by decide
    simp only [hws, Bool.false_eq_true, if_false, if_pos rfl]
    rw [hcons]
    simp only [jsParseFloatBody, hdig, if_true]
    rw [← hcons, hrd]
    simp only
    congr 1
    omega
  · have hz : 0 ≤ i := by omega
    by_cases h0 : i = 0
    · subst h0
      decide
    · have hpos : 0 < i.natAbs := by omega
      obtain ⟨c, cs, hcons⟩ :=
        List.exists_cons_of_ne_nil (natToDecAux_ne_nil i.natAbs i.natAbs hpos le_rfl)
      obtain ⟨hm, hp, hdig⟩ := natToDecAux_head_not_sign i.natAbs hpos c cs hcons
      have hdrop := natToDecAux_dropWhile_ws i.natAbs hpos
      have hrd : readDigits 0 (natToDecAux i.natAbs i.natAbs) = (i.natAbs, []) :=
        readDigits_natToDecAux i.natAbs hpos
      have hdata : (intToDecimal i).data = natToDecAux i.natAbs i.natAbs := by
        simp [intToDecimal, hneg, natToDecimal, h0]
      rw [jsParseFloat, hdata]
      rw [jsParseFloatChars, hdrop, hcons]
      simp only [if_neg hm, if_neg hp]
      simp only [jsParseFloatBody, hdig, if_true]
      rw [← hcons, hrd]
      simp only
      congr 1
      omega

/-! ## Helper lemmas: schema name rewriting -/

theorem setName_setName (s : Schema) (a b : String) : setName (setName s a) b = setName s b := by
  cases s <;> rfl

theorem schemaName_setName (s : Schema) (n : String) : schemaName (setName s n) = n := by
  cases s <;> rfl

theorem schemaTypeStr_setName (s : Schema) (n : String) :
    schemaTypeStr (setName s n) = schemaTypeStr s := by
  cases s <;> rfl

theorem uniqueNamesB_setName (s : Schema) (n : String) :
    uniqueNamesB (setName s n) = uniqueNamesB s := by
  cases s <;> simp [setName, uniqueNamesB]

/-- Renaming the element template does not change the element loop: the
clone's name is overwritten with the index before every use. -/
theorem checkElems_setName (et : Schema) (nm : String) :
    ∀ fuel elems i valid errors epath, elems.length - i ≤ fuel →
      checkElems (setName et nm) elems i valid errors epath
        = checkElems et elems i valid errors epath := by
  intro fuel
  induction fuel with
  | zero =>
    intro elems i valid errors epath hle
    have hni : ¬ i < elems.length := by omega
    conv_lhs => rw [checkElems.eq_def]
    conv_rhs => rw [checkElems.eq_def]
    simp only [dif_neg hni]
  | succ fuel ih =>
    intro elems i valid errors epath hle
    conv_lhs => rw [checkElems.eq_def]
    conv_rhs => rw [checkElems.eq_def]
    by_cases hi : i < elems.length
    · simp only [dif_pos hi, setName_setName]
      cases valid with
      | false =>
        simp only [Bool.false_eq_true, if_false]
        exact ih elems (i + 1) false errors epath (by omega)
      | true =>
        simp only [if_true]
        rcases hR : checkVal (setName et (natToDecimal i)) (elems.getD i .vUndef) errors epath
          with ⟨b, w, errs⟩
        simp only [hR]
        rcases w with _ | x
        · exact ih elems (i + 1) b errs epath (by omega)
        · refine ih (elems.set i x) (i + 1) b errs epath ?_
          simp only [List.length_set]
          omega
    · simp only [dif_neg hi]

/-- C10: enum membership uses strict same-type equality: against numeric
symbols, a string value from the bag never matches — the checker performs no
coercion before the membership test — and the call fails with the
"invalid symbol" error (joining the symbols), writing nothing back. -/
theorem c10_enum_membership_strict_no_coercion
    (name : String) (nums : List Int) (opt : Bool) (s : String)
    (errors : List SchemaError) (path : String) :
    checkVal (.sEnum name (.nums nums) opt) (.vStr s) errors path
      = (false, none,
          pushError errors path name "enum" (.vStr s)
            ("invalid symbol, valid symbols : ["
              ++ String.intercalate ", " (nums.map intToDecimal) ++ "]")) := by
  simp [checkVal, checkEnumVal, typeofStr, symContains, symJoin]

/-- C9: the array checker validates elements against a clone of
`elementType` whose `name` is rebound per element; the caller's `elementType`
object — in particular its `name` — is never consumed as mutable state, so
the checker's entire outcome is invariant under rewriting the `name` of the
supplied `elementType` (and, the embedding being pure, the caller's schema
value is unchanged by validation). -/
theorem c9_element_schema_clone_isolation
    (aname newName : String) (et : Schema) (opt : Bool) (v : JSValue)
    (errors : List SchemaError) (path : String) :
    checkVal (.sArray aname (setName et newName) opt) v errors path
      = checkVal (.sArray aname et opt) v errors path := by
  conv_lhs => rw [checkVal.eq_def]
  conv_rhs => rw [checkVal.eq_def]
  simp only
  rcases asArray (arrayCoerced v) with _ | l
  · simp
  · simp only
    rw [checkElems_setName et newName (l.length - 0) l 0 true errors
      (if path = "" then aname ++ "[" else path ++ "." ++ aname ++ "[") le_rfl]

/-! ## Helper lemmas: result shapes of the primitive checkers -/

theorem checkNumVal_shape (name : String) (kind : NumKind) (min max : Option Int) (v : JSValue)
    (e : List SchemaError) (p : String) :
    (∃ pv, checkNumVal name kind min max v e p = (true, some (.vNum pv), e)) ∨
    (∃ err, checkNumVal name kind min max v e p = (false, none, e ++ [err])) := by
  simp only [checkNumVal]
  split
  · exact Or.inr ⟨_, rfl⟩
  · split
    · exact Or.inr ⟨_, rfl⟩
    · split
      · exact Or.inr ⟨_, rfl⟩
      · exact Or.inl ⟨_, rfl⟩

theorem checkStringVal_shape (name : String) (length min_length max_length : Option Int)
    (v : JSValue) (e : List SchemaError) (p : String) :
    (∃ sv, checkStringVal name length min_length max_length v e p
        = (true, some (.vStr sv), e)) ∨
    (∃ err, checkStringVal name length min_length max_length v e p
        = (false, none, e ++ [err])) := by
  simp only [checkStringVal]
  split
  · exact Or.inr ⟨_, rfl⟩
  · split
    · exact Or.inr ⟨_, rfl⟩
    · split
      · exact Or.inr ⟨_, rfl⟩
      · exact Or.inl ⟨_, rfl⟩

theorem checkBooleanVal_shape (name : String) (allowNumeric : Option Bool) (v : JSValue)
    (e : List SchemaError) (p : String) :
    (checkBooleanVal name allowNumeric v e p = (true, some (boolCoerce v), e)) ∨
    (∃ err, checkBooleanVal name allowNumeric v e p = (false, none, e ++ [err])) := by
  simp only [checkBooleanVal]
  split
  · exact Or.inr ⟨_, rfl⟩
  · exact Or.inl rfl

theorem checkEnumVal_shape (name : String) (symbols : EnumSymbols) (v : JSValue)
    (e : List SchemaError) (p : String) :
    (checkEnumVal name symbols v e p = (true, none, e)) ∨
    (∃ err, checkEnumVal name symbols v e p = (false, none, e ++ [err])) := by
  simp only [checkEnumVal]
  split
  · exact Or.inr ⟨_, rfl⟩
  · split
    · exact Or.inr ⟨_, rfl⟩
    · exact Or.inl rfl

theorem checkVal_primitive_fail (s : Schema) (hprim : isPrimitiveSchema s = true)
    (v : JSValue) (e : List SchemaError) (p : String)
    (hfail : (checkVal s v e p).1 = false) :
    (checkVal s v e p).2.1 = none ∧ ∃ err, (checkVal s v e p).2.2 = e ++ [err] := by
  cases s with
  | sNum name kind min max opt =>
    have hunf : checkVal (.sNum name kind min max opt) v e p
        = checkNumVal name kind min max v e p := by
      rw [checkVal.eq_def]
    rw [hunf] at hfail ⊢
    rcases checkNumVal_shape name kind min max v e p with ⟨pv, hh⟩ | ⟨err, hh⟩
    · rw [hh] at hfail
      simp at hfail
    · rw [hh]
      exact ⟨rfl, err, rfl⟩
  | sString name length min_length max_length opt =>
    have hunf : checkVal (.sString name length min_length max_length opt) v e p
        = checkStringVal name length min_length max_length v e p := by
      rw [checkVal.eq_def]
    rw [hunf] at hfail ⊢
    rcases checkStringVal_shape name length min_length max_length v e p with ⟨sv, hh⟩ | ⟨err, hh⟩
    · rw [hh] at hfail
      simp at hfail
    · rw [hh]
      exact ⟨rfl, err, rfl⟩
  | sBoolean name allowNumeric opt =>
    have hunf : checkVal (.sBoolean name allowNumeric opt) v e p
        = checkBooleanVal name allowNumeric v e p := by
      rw [checkVal.eq_def]
    rw [hunf] at hfail ⊢
    rcases checkBooleanVal_shape name allowNumeric v e p with hh | ⟨err, hh⟩
    · rw [hh] at hfail
      simp at hfail
    · rw [hh]
      exact ⟨rfl, err, rfl⟩
  | sEnum name symbols opt =>
    have hunf : checkVal (.sEnum name symbols opt) v e p = checkEnumVal name symbols v e p := by
      rw [checkVal.eq_def]
    rw [hunf] at hfail ⊢
    rcases checkEnumVal_shape name symbols v e p with hh | ⟨err, hh⟩
    · rw [hh] at hfail
      simp at hfail
    · rw [hh]
      exact ⟨rfl, err, rfl⟩
  | sArray name et opt => simp [isPrimitiveSchema] at hprim
  | sObject name fields opt => simp [isPrimitiveSchema] at hprim

/-- C4 (amended): a failing primitive or enum field mutates nothing: when the
single-field validator returns false on a non-container schema, the data bag
is returned unchanged and exactly one error is appended.  (Array and object
fields are excluded: on failure they may retain the parsed container and the
coercions of passing elements — see the counterexample.) -/
theorem c4_amended_primitive_fields_fail_without_mutation
    (s : Schema) (hprim : isPrimitiveSchema s = true) (data : JSValue)
    (errors : List SchemaError) (path : String)
    (hfail : (isValidOne s data errors path).1 = false) :
    (isValidOne s data errors path).2.1 = data ∧
    ∃ err, (isValidOne s data errors path).2.2 = errors ++ [err] := by
  rw [isValidOne.eq_def] at hfail ⊢
  by_cases hmiss :
      (!(hasKeyB data (schemaName s)) || isNullOrUndef (getKey data (schemaName s))) = true
  · simp only [hmiss, if_true] at hfail ⊢
    by_cases hopt : schemaOptional s = true
    · simp [hopt] at hfail
    · have hopt' : schemaOptional s = false := by
        rwa [Bool.not_eq_true] at hopt
      simp only [hopt', Bool.false_eq_true, if_false] at hfail ⊢
      exact ⟨trivial, _, rfl⟩
  · have hmiss' :
        (!(hasKeyB data (schemaName s)) || isNullOrUndef (getKey data (schemaName s))) = false := by
      rwa [Bool.not_eq_true] at hmiss
    simp only [hmiss', Bool.false_eq_true, if_false] at hfail ⊢
    obtain ⟨h1, err, h2⟩ :=
      checkVal_primitive_fail s hprim (getKey data (schemaName s)) errors path hfail
    refine ⟨?_, err, ?_⟩
    · rw [h1]
    · rw [h2]

/-- C5 (amended): when the array checker cannot obtain a sequence it appends
exactly one "array expected" error and returns false without writing; the
recorded value is the original raw bag value when that value is a non-string
non-sequence or a string whose JSON parse throws, but it is the RESULT OF THE
PARSE when the parse succeeds with a non-sequence (the source reassigns
`value` before pushing the error). -/
theorem c5_amended_array_expected_error_value
    (aname path : String) (et : Schema) (opt : Bool) (errors : List SchemaError) :
    (∀ v : JSValue, asArray v = none → (∀ s, v ≠ .vStr s) →
        checkVal (.sArray aname et opt) v errors path
          = (false, none, pushError errors path aname "array" v "array expected")) ∧
    (∀ s w, jsonParse s = some w → asArray w = none →
        checkVal (.sArray aname et opt) (.vStr s) errors path
          = (false, none, pushError errors path aname "array" w "array expected")) ∧
    (∀ s, jsonParse s = none →
        checkVal (.sArray aname et opt) (.vStr s) errors path
          = (false, none, pushError errors path aname "array" (.vStr s) "array expected")) := by
  refine ⟨?_, ?_, ?_⟩
  · intro v hnone hstr
    have hac : arrayCoerced v = v := by
      cases v with
      | vStr s => exact absurd rfl (hstr s)
      | vArr l => simp [asArray] at hnone
      | vUndef => rfl
      | vNull => rfl
      | vBool b => rfl
      | vNum n => rfl
      | vObj l => rfl
    rw [checkVal.eq_def]
    simp only [hac, hnone]
  · intro s w hparse hnone
    have hac : arrayCoerced (.vStr s) = w := by
      simp [arrayCoerced, hparse]
    rw [checkVal.eq_def]
    simp only [hac, hnone]
  · intro s hparse
    have hac : arrayCoerced (.vStr s) = .vStr s := by
      simp [arrayCoerced, hparse]
    rw [checkVal.eq_def]
    simp only [hac, asArray]

/-- C6: a numeric `min`/`max` bound and a string `min_length`/`max_length`
bound set to the literal 0 are enforced as real bounds, while an absent
bound is never checked: with `{type:int, min:0}` any value parsing to a
negative integer fails with "less than min" and any value parsing to a
non-negative integer passes; with no bounds every parsed value passes; with
`max_length:0` a non-empty string fails with "length greater than max" and
the empty string passes (a `min_length:0` is likewise present yet trivially
satisfied); with no length bounds every string passes. -/
theorem c6_zero_bounds_are_real_bounds
    (name path : String) (errors : List SchemaError) :
    (∀ (v : JSValue) (iv : Int), jsParseInt (jsToString v) = some iv →
      ((iv < 0 → checkVal (.sNum name .int (some 0) none false) v errors path
          = (false, none, pushError errors path name "int" v "less than min")) ∧
       (0 ≤ iv → checkVal (.sNum name .int (some 0) none false) v errors path
          = (true, some (.vNum iv), errors)) ∧
       (0 < iv → checkVal (.sNum name .int none (some 0) false) v errors path
          = (false, none, pushError errors path name "int" v "greater than max")) ∧
       (iv ≤ 0 → checkVal (.sNum name .int none (some 0) false) v errors path
          = (true, some (.vNum iv), errors)) ∧
       (checkVal (.sNum name .int none none false) v errors path
          = (true, some (.vNum iv), errors)))) ∧
    (∀ t : String,
      ((t ≠ "" → checkVal (.sString name none (some 0) (some 0) false) (.vStr t) errors path
          = (false, none, pushError errors path name "string" (.vStr t)
              "length greater than max")) ∧
       (checkVal (.sString name none (some 0) (some 0) false) (.vStr "") errors path
          = (true, some (.vStr ""), errors)) ∧
       (checkVal (.sString name none none none false) (.vStr t) errors path
          = (true, some (.vStr t), errors)))) := by
  constructor
  · intro v iv hparse
    have hunf : ∀ (mn mx : Option Int),
        checkVal (.sNum name .int mn mx false) v errors path
          = checkNumVal name .int mn mx v errors path := by
      intro mn mx
      rw [checkVal.eq_def]
    refine ⟨?_, ?_, ?_, ?_, ?_⟩
    · intro hlt
      rw [hunf]
      simp [checkNumVal, parseByKind, hparse, numBoundActive, ltOpt, hlt, numKindStr]
    · intro hge
      rw [hunf]
      simp [checkNumVal, parseByKind, hparse, numBoundActive, ltOpt, gtOpt, numKindStr]
      omega
    · intro hgt
      rw [hunf]
      simp [checkNumVal, parseByKind, hparse, numBoundActive, ltOpt, gtOpt, hgt, numKindStr]
    · intro hle
      rw [hunf]
      simp [checkNumVal, parseByKind, hparse, numBoundActive, ltOpt, gtOpt, numKindStr]
      omega
    · rw [hunf]
      simp [checkNumVal, parseByKind, hparse, numBoundActive, ltOpt, gtOpt, numKindStr]
  · intro t
    have hunf : ∀ (ln mnl mxl : Option Int) (w : JSValue),
        checkVal (.sString name ln mnl mxl false) w errors path
          = checkStringVal name ln mnl mxl w errors path := by
      intro ln mnl mxl w
      rw [checkVal.eq_def]
    refine ⟨?_, ?_, ?_⟩
    · intro hne
      have hpos : 0 < t.length := by
        cases t with
        | mk data =>
          have hd : data ≠ [] := by
            intro h
            subst h
            exact hne rfl
          simpa [String.length] using List.length_pos.mpr hd
      have hposI : (0 : Int) < (t.length : Int) := by exact_mod_cast hpos
      rw [hunf]
      simp [checkStringVal, strOfVal, lengthTruthy, numBoundActive, ltOpt, gtOpt, neOpt, hposI]
    · rw [hunf]
      simp [checkStringVal, strOfVal, lengthTruthy, numBoundActive, ltOpt, gtOpt, neOpt]
    · rw [hunf]
      simp [checkStringVal, strOfVal, lengthTruthy, numBoundActive, ltOpt, gtOpt, neOpt]

/-! ## Concrete evaluations of the validator

The section marks the model's definitions as local simp lemmas so that
`simp` evaluates the validator on the concrete inputs of the claims. -/

section ConcreteEvaluation

attribute [local simp] isValid isValidSeq isValidOne checkVal checkNumVal checkStringVal
  parseByKind strOfVal
  checkBooleanVal checkEnumVal checkElems asArray arrayCoerced objectCoerced getKey setKey
  hasKeyB getPairs setPairs hasPairs schemaName schemaTypeStr schemaOptional numKindStr setName
  isNullOrUndef pushError buildPath endsWithOpenBracket numBoundActive ltOpt gtOpt neOpt
  lengthTruthy allowedBoolValues includesPrim jvPrimEq boolCoerce symContains symJoin typeofStr
  jsToString jsJoinList jsonStringify jsonStringifyItems jsonStringifyProps escapeJSON
  escapeJSONChar intToDecimal digitVal readDigits parseUnsigned
  jsParseInt jsParseIntChars jsParseFloat jsParseFloatChars jsParseFloatBody jsonParse pValue
  pItems pMembers pNumber pNumberTail pStringChars escCharMap hexVal isHexDigitChar skipWs
  isJSONWs isPrimitiveSchema uniqueNamesB uniqueNamesListB deepNoNullB deepNoNullListB
  deepNoNullPairsB

theorem natToDecimal_zero : natToDecimal 0 = "0" := by decide

theorem natToDecimal_one : natToDecimal 1 = "1" := by decide

theorem string_length_one : ("1" : String).length = 1 := by decide

theorem string_length_true_word : ("true" : String).length = 4 := by decide

attribute [local simp] natToDecimal_zero natToDecimal_one string_length_one
  string_length_true_word

/-- C1: FALSE as stated — the recursive validator's loop body is
`valid &&= isValid(entry, …)`, and `&&=` short-circuits: after the first
failing entry the remaining entries are not evaluated at all.  With two
independent int fields that both fail (K = 2 of N = 2), the call returns
false but the error sink holds exactly ONE error (for the first field), not
K. -/
theorem c1_sequence_short_circuits_error_collection :
    (isValid [Schema.sNum "a" .int none none false, Schema.sNum "b" .int none none false]
        (JSValue.vObj [("a", JSValue.vStr "x"), ("b", JSValue.vStr "y")]) [] ""
      = (false, JSValue.vObj [("a", JSValue.vStr "x"), ("b", JSValue.vStr "y")],
          [{ name := "a", type := "int", value := JSValue.vStr "x",
             description := "not a number" }])) ∧
    (isValid [Schema.sNum "a" .int none none false, Schema.sNum "b" .int none none false]
        (JSValue.vObj [("a", JSValue.vStr "x"), ("b", JSValue.vStr "y")]) [] "").2.2.length
      = 1 := by
  constructor
  · simp
  · simp

/-- C2: FALSE as stated — the array element loop is also
`valid &&= TypeChecker[...](…)`, which short-circuits: after the first
failing element the remaining elements are neither validated nor reported.
With two elements that both fail, only `ids[0]` is recorded. -/
theorem c2_array_loop_short_circuits_element_errors :
    (isValid [Schema.sArray "ids" (Schema.sNum "" .int none none false) false]
        (JSValue.vObj [("ids", JSValue.vArr [JSValue.vStr "p", JSValue.vStr "q"])]) [] ""
      = (false, JSValue.vObj [("ids", JSValue.vArr [JSValue.vStr "p", JSValue.vStr "q"])],
          [{ name := "ids[0]", type := "int", value := JSValue.vStr "p",
             description := "not a number" }])) ∧
    (isValid [Schema.sArray "ids" (Schema.sNum "" .int none none false) false]
        (JSValue.vObj [("ids", JSValue.vArr [JSValue.vStr "p", JSValue.vStr "q"])]) [] "").2.2.length
      = 1 := by
  constructor
  · simp
  · simp

/-- C3: FALSE as stated — the normalization expression
`value === 'true' || value === '1' || value` returns its OPERAND, so on
success the bag receives a real boolean only for `'true'`/`'1'` (and values
that were already booleans): the accepted value `'false'` is written back as
the string `'false'`, not the boolean false, and the accepted numeric 1 is
written back as the number 1, not the boolean true. -/
theorem c3_boolean_normalization_keeps_raw_operand :
    (isValid [Schema.sBoolean "f" none false] (JSValue.vObj [("f", JSValue.vStr "false")]) [] ""
      = (true, JSValue.vObj [("f", JSValue.vStr "false")], [])) ∧
    JSValue.vStr "false" ≠ JSValue.vBool false ∧
    (isValid [Schema.sBoolean "g" none false] (JSValue.vObj [("g", JSValue.vNum 1)]) [] ""
      = (true, JSValue.vObj [("g", JSValue.vNum 1)], [])) ∧
    JSValue.vNum 1 ≠ JSValue.vBool true := by
  refine ⟨by simp, by simp, by simp, by simp⟩

/-- C4 (counterexample): an array field whose check FAILS can still mutate
the bag: with elements `["1", "x"]` under an int element schema, element 0
is coerced to the number 1 and element 1 fails, so the verdict is false yet
the bag entry changed from `["1", "x"]` to `[1, "x"]` — the failing field is
NOT left at its raw pre-validation value. -/
theorem c4_counterexample_array_partial_coercion :
    (isValid [Schema.sArray "ids" (Schema.sNum "" .int none none false) false]
        (JSValue.vObj [("ids", JSValue.vArr [JSValue.vStr "1", JSValue.vStr "x"])]) [] ""
      = (false, JSValue.vObj [("ids", JSValue.vArr [JSValue.vNum 1, JSValue.vStr "x"])],
          [{ name := "ids[1]", type := "int", value := JSValue.vStr "x",
             description := "not a number" }])) ∧
    JSValue.vObj [("ids", JSValue.vArr [JSValue.vNum 1, JSValue.vStr "x"])]
      ≠ JSValue.vObj [("ids", JSValue.vArr [JSValue.vStr "1", JSValue.vStr "x"])] := by
  constructor
  · simp
  · simp

/-- C5 (counterexample): for the raw bag value `"5"` (a string), the JSON
parse SUCCEEDS with the number 5, which is still not a sequence; the
"array expected" error then records the parse result 5 — not the original
raw string `"5"` as the claim states. -/
theorem c5_counterexample_parse_result_recorded :
    (checkVal (Schema.sArray "ids" (Schema.sNum "" .int none none false) false)
        (JSValue.vStr "5") [] ""
      = (false, none,
          [{ name := "ids", type := "array", value := JSValue.vNum 5,
             description := "array expected" }])) ∧
    JSValue.vNum 5 ≠ JSValue.vStr "5" := by
  constructor
  · simp
  · simp

/-- C8 (counterexample): validation is NOT idempotent on the data bag as
stated.  (i) A required object field whose raw value is the string "null"
validates successfully — JSON.parse yields null, `typeof null === "object"`
— and the bag receives null; re-validating the coerced bag then FAILS with
"not found", because the presence gate treats null as missing.  (ii) With
duplicate sibling names (string of exact length 1, then boolean, both named
"a") the bag `{a: 1}` validates successfully to `{a: true}`, but
re-validating `{a: true}` FAILS: the string checker stringifies `true` to
"true", whose length is 4. -/
theorem c8_counterexample_revalidation_not_idempotent :
    (isValid [Schema.sObject "o" [] false] (JSValue.vObj [("o", JSValue.vStr "null")]) [] ""
      = (true, JSValue.vObj [("o", JSValue.vNull)], [])) ∧
    ((isValid [Schema.sObject "o" [] false] (JSValue.vObj [("o", JSValue.vNull)]) [] "").1
      = false) ∧
    (isValid [Schema.sString "a" (some 1) none none false, Schema.sBoolean "a" none false]
        (JSValue.vObj [("a", JSValue.vNum 1)]) [] ""
      = (true, JSValue.vObj [("a", JSValue.vBool true)], [])) ∧
    ((isValid [Schema.sString "a" (some 1) none none false, Schema.sBoolean "a" none false]
        (JSValue.vObj [("a", JSValue.vBool true)]) [] "").1 = false) := by
  refine ⟨by simp, by simp, by simp, by simp⟩

/-- C7: the error-path builder produces the segment alone on an empty
prefix, `prefix + segment + "]"` when the prefix ends with an open bracket,
and `prefix + "." + segment` otherwise; `pushError` records exactly this
path, and end to end a failing nested field `age` under object `user` is
reported as `user.age` while a failing element 0 of top-level array `ids`
is reported as `ids[0]`. -/
theorem c7_error_path_builder :
    (∀ path name : String,
      (path = "" → buildPath path name = name) ∧
      (path ≠ "" → endsWithOpenBracket path = true → buildPath path name = path ++ name ++ "]") ∧
      (path ≠ "" → endsWithOpenBracket path = false → buildPath path name = path ++ "." ++ name)) ∧
    (∀ (errors : List SchemaError) (path name ty : String) (v : JSValue) (desc : String),
      pushError errors path name ty v desc
        = errors ++ [SchemaError.mk (buildPath path name) ty v desc]) ∧
    (isValid [Schema.sObject "user" [Schema.sNum "age" .int none none false] false]
        (JSValue.vObj [("user", JSValue.vObj [("age", JSValue.vStr "x")])]) [] ""
      = (false, JSValue.vObj [("user", JSValue.vObj [("age", JSValue.vStr "x")])],
          [{ name := "user.age", type := "int", value := JSValue.vStr "x",
             description := "not a number" }])) ∧
    (isValid [Schema.sArray "ids" (Schema.sNum "" .int none none false) false]
        (JSValue.vObj [("ids", JSValue.vArr [JSValue.vStr "a"])]) [] ""
      = (false, JSValue.vObj [("ids", JSValue.vArr [JSValue.vStr "a"])],
          [{ name := "ids[0]", type := "int", value := JSValue.vStr "a",
             description := "not a number" }])) := by
  refine ⟨?_, ?_, ?_, ?_⟩
  · intro path name
    refine ⟨fun h => by simp [buildPath, h], fun h1 h2 => ?_, fun h1 h2 => ?_⟩
    · simp only [buildPath, h1, if_false, h2, if_true]
    · simp only [buildPath, h1, if_false, h2, Bool.false_eq_true]
  · intro errors path name ty v desc
    rfl
  · simp
  · simp

/-- Witness for C7 at concrete inputs. -/
theorem c7_witness :
    buildPath "" "age" = "age" ∧ buildPath "ids[" "0" = "ids[0]" ∧
      buildPath "user" "age" = "user.age" := by
  have h := c7_error_path_builder.1
  exact ⟨(h "" "age").1 rfl,
    (h "ids[" "0").2.1 (by decide) (by decide),
    (h "user" "age").2.2 (by decide) (by decide)⟩

/-- Witness for C4 (amended) at a concrete input: a failing required int
field leaves the bag unchanged and appends one error. -/
theorem c4_amended_witness :
    (isValidOne (Schema.sNum "a" .int none none false)
        (JSValue.vObj [("a", JSValue.vStr "x")]) [] "").2.1
      = JSValue.vObj [("a", JSValue.vStr "x")] ∧
    ∃ err, (isValidOne (Schema.sNum "a" .int none none false)
        (JSValue.vObj [("a", JSValue.vStr "x")]) [] "").2.2 = [] ++ [err] :=
  c4_amended_primitive_fields_fail_without_mutation
    (Schema.sNum "a" .int none none false) (by simp)
    (JSValue.vObj [("a", JSValue.vStr "x")]) [] "" (by simp)

/-- Witness for C5 (amended) at concrete inputs covering all three cases:
a number value is recorded as-is, a string whose parse yields a non-array
records the parse result, and an unparsable string records the raw string. -/
theorem c5_amended_witness :
    (checkVal (Schema.sArray "ids" (Schema.sNum "" .int none none false) false)
        (JSValue.vNum 7) [] ""
      = (false, none, pushError [] "" "ids" "array" (JSValue.vNum 7) "array expected")) ∧
    (checkVal (Schema.sArray "ids" (Schema.sNum "" .int none none false) false)
        (JSValue.vStr "5") [] ""
      = (false, none, pushError [] "" "ids" "array" (JSValue.vNum 5) "array expected")) ∧
    (checkVal (Schema.sArray "ids" (Schema.sNum "" .int none none false) false)
        (JSValue.vStr "oops") [] ""
      = (false, none, pushError [] "" "ids" "array" (JSValue.vStr "oops") "array expected")) :=
  ⟨(c5_amended_array_expected_error_value "ids" "" (Schema.sNum "" .int none none false)
      false []).1 (JSValue.vNum 7) (by simp) (by intro s h; cases h),
   (c5_amended_array_expected_error_value "ids" "" (Schema.sNum "" .int none none false)
      false []).2.1 "5" (JSValue.vNum 5) (by simp) (by simp),
   (c5_amended_array_expected_error_value "ids" "" (Schema.sNum "" .int none none false)
      false []).2.2 "oops" (by simp)⟩

/-- Witness for C6 at concrete inputs: `{type:int, min:0}` fails on −1 with
"less than min" and passes on 0; `{max_length:0}` fails on "x". -/
theorem c6_witness :
    (checkVal (Schema.sNum "limit" .int (some 0) none false) (JSValue.vStr "-1") [] ""
      = (false, none, pushError [] "" "limit" "int" (JSValue.vStr "-1") "less than min")) ∧
    (checkVal (Schema.sNum "limit" .int (some 0) none false) (JSValue.vStr "0") [] ""
      = (true, some (JSValue.vNum 0), [])) ∧
    (checkVal (Schema.sString "s" none (some 0) (some 0) false) (JSValue.vStr "x") [] ""
      = (false, none,
          pushError [] "" "s" "string" (JSValue.vStr "x") "length greater than max")) :=
  ⟨((c6_zero_bounds_are_real_bounds "limit" "" []).1 (JSValue.vStr "-1") (-1)
      (by simp)).1 (by norm_num),
   ((c6_zero_bounds_are_real_bounds "limit" "" []).1 (JSValue.vStr "0") 0
      (by simp)).2.1 le_rfl,
   ((c6_zero_bounds_are_real_bounds "s" "" []).2 "x").1 (by decide)⟩

end ConcreteEvaluation

/-! ## C8 machinery: one-step unfolding lemmas for the validator -/

theorem checkVal_sNum_eq (name : String) (kind : NumKind) (min max : Option Int) (opt : Bool)
    (v : JSValue) (e : List SchemaError) (p : String) :
    checkVal (.sNum name kind min max opt) v e p = checkNumVal name kind min max v e p := by
  rw [checkVal.eq_def]

theorem checkVal_sString_eq (name : String) (length min_length max_length : Option Int)
    (opt : Bool) (v : JSValue) (e : List SchemaError) (p : String) :
    checkVal (.sString name length min_length max_length opt) v e p
      = checkStringVal name length min_length max_length v e p := by
  rw [checkVal.eq_def]

theorem checkVal_sBoolean_eq (name : String) (allowNumeric : Option Bool) (opt : Bool)
    (v : JSValue) (e : List SchemaError) (p : String) :
    checkVal (.sBoolean name allowNumeric opt) v e p = checkBooleanVal name allowNumeric v e p := by
  rw [checkVal.eq_def]

theorem checkVal_sEnum_eq (name : String) (symbols : EnumSymbols) (opt : Bool)
    (v : JSValue) (e : List SchemaError) (p : String) :
    checkVal (.sEnum name symbols opt) v e p = checkEnumVal name symbols v e p := by
  rw [checkVal.eq_def]

theorem checkVal_sArray_eq (name : String) (et : Schema) (opt : Bool)
    (v : JSValue) (e : List SchemaError) (p : String) :
    checkVal (.sArray name et opt) v e p
      = (match asArray (arrayCoerced v) with
         | some l =>
           ((checkElems et l 0 true e
               (if p = "" then name ++ "[" else p ++ "." ++ name ++ "[")).1,
            some (.vArr (checkElems et l 0 true e
               (if p = "" then name ++ "[" else p ++ "." ++ name ++ "[")).2.1),
            (checkElems et l 0 true e
               (if p = "" then name ++ "[" else p ++ "." ++ name ++ "[")).2.2)
         | none => (false, none, pushError e p name "array" (arrayCoerced v) "array expected")) := by
  rw [checkVal.eq_def]

theorem checkVal_sObject_eq (name : String) (fields : List Schema) (opt : Bool)
    (v : JSValue) (e : List SchemaError) (p : String) :
    checkVal (.sObject name fields opt) v e p
      = (if typeofStr (objectCoerced v) ≠ "object" then
          (false, none, pushError e p name "object" (objectCoerced v) "object expected")
        else
          ((isValidSeq fields true (objectCoerced v) e (buildPath p name)).1,
           some (isValidSeq fields true (objectCoerced v) e (buildPath p name)).2.1,
           (isValidSeq fields true (objectCoerced v) e (buildPath p name)).2.2)) := by
  rw [checkVal.eq_def]

theorem isValidOne_eq (s : Schema) (d : JSValue) (e : List SchemaError) (p : String) :
    isValidOne s d e p
      = (if !(hasKeyB d (schemaName s)) || isNullOrUndef (getKey d (schemaName s)) then
          if schemaOptional s then (true, d, e)
          else (false, d,
            pushError e p (schemaName s) (schemaTypeStr s) (getKey d (schemaName s)) "not found")
        else
          ((checkVal s (getKey d (schemaName s)) e p).1,
           match (checkVal s (getKey d (schemaName s)) e p).2.1 with
           | some w => setKey d (schemaName s) w
           | none => d,
           (checkVal s (getKey d (schemaName s)) e p).2.2)) := by
  rw [isValidOne.eq_def]

theorem isValidSeq_nil (valid : Bool) (d : JSValue) (e : List SchemaError) (p : String) :
    isValidSeq [] valid d e p = (valid, d, e) := by
  rw [isValidSeq.eq_def]

theorem isValidSeq_cons (s : Schema) (rest : List Schema) (valid : Bool) (d : JSValue)
    (e : List SchemaError) (p : String) :
    isValidSeq (s :: rest) valid d e p
      = (if valid then
          isValidSeq rest (isValidOne s d e p).1 (isValidOne s d e p).2.1
            (isValidOne s d e p).2.2 p
        else isValidSeq rest false d e p) := by
  rw [isValidSeq.eq_def]

theorem checkElems_stop (et : Schema) (elems : List JSValue) (i : Nat) (valid : Bool)
    (e : List SchemaError) (p : String) (h : ¬ i < elems.length) :
    checkElems et elems i valid e p = (valid, elems, e) := by
  rw [checkElems.eq_def]
  simp [h]

theorem checkElems_step (et : Schema) (elems : List JSValue) (i : Nat) (valid : Bool)
    (e : List SchemaError) (p : String) (h : i < elems.length) :
    checkElems et elems i valid e p
      = (if valid then
          checkElems et
            (match (checkVal (setName et (natToDecimal i)) (elems.getD i .vUndef) e p).2.1 with
             | some w => elems.set i w
             | none => elems)
            (i + 1)
            (checkVal (setName et (natToDecimal i)) (elems.getD i .vUndef) e p).1
            (checkVal (setName et (natToDecimal i)) (elems.getD i .vUndef) e p).2.2 p
        else checkElems et elems (i + 1) false e p) := by
  rw [checkElems.eq_def]
  simp [h]

/-! ## C8 machinery: a false verdict propagates without effect -/

theorem isValidSeq_false (l : List Schema) :
    ∀ d e p, isValidSeq l false d e p = (false, d, e) := by
  induction l with
  | nil => intro d e p; rw [isValidSeq_nil]
  | cons s rest ih =>
    intro d e p
    rw [isValidSeq_cons]
    simp only [Bool.false_eq_true, if_false]
    exact ih d e p

theorem checkElems_false (et : Schema) :
    ∀ fuel elems i e p, elems.length - i ≤ fuel →
      checkElems et elems i false e p = (false, elems, e) := by
  intro fuel
  induction fuel with
  | zero =>
    intro elems i e p hle
    exact checkElems_stop et elems i false e p (by omega)
  | succ fuel ih =>
    intro elems i e p hle
    by_cases hi : i < elems.length
    · rw [checkElems_step et elems i false e p hi]
      simp only [Bool.false_eq_true, if_false]
      exact ih elems (i + 1) e p (by omega)
    · exact checkElems_stop et elems i false e p hi

/-! ## C8 machinery: the error sink only grows (input is a prefix of output) -/

theorem mono_one_of_val (s : Schema) (hval : MonoValP s) :
    ∀ d e p, ∃ t, (isValidOne s d e p).2.2 = e ++ t := by
  intro d e p
  rw [isValidOne_eq]
  by_cases hmiss : (!(hasKeyB d (schemaName s)) || isNullOrUndef (getKey d (schemaName s))) = true
  · simp only [hmiss, if_true]
    by_cases hopt : schemaOptional s = true
    · simp only [hopt, if_true]
      exact ⟨[], by simp⟩
    · have hopt' : schemaOptional s = false := by rwa [Bool.not_eq_true] at hopt
      simp only [hopt', Bool.false_eq_true, if_false]
      exact ⟨[_], rfl⟩
  · have hmiss' :
        (!(hasKeyB d (schemaName s)) || isNullOrUndef (getKey d (schemaName s))) = false := by
      rwa [Bool.not_eq_true] at hmiss
    simp only [hmiss', Bool.false_eq_true, if_false]
    exact hval (getKey d (schemaName s)) e p

theorem mono_main : ∀ N : Nat,
    (∀ s, 3 * schemaSize s < N → MonoValP s) ∧
    (∀ et, 3 * schemaSize et + 1 < N → MonoLoopP et) ∧
    (∀ l, 3 * schemaListSize l + 5 < N → MonoSeqP l) := by
  intro N
  induction N using Nat.strong_induction_on with
  | _ N IH =>
    refine ⟨?_, ?_, ?_⟩
    · intro s hs v e p
      cases s with
      | sNum name kind min max opt =>
        rw [checkVal_sNum_eq]
        rcases checkNumVal_shape name kind min max v e p with ⟨pv, hh⟩ | ⟨err, hh⟩
        · exact ⟨[], by rw [hh]; simp⟩
        · exact ⟨[err], by rw [hh]⟩
      | sString name l1 l2 l3 opt =>
        rw [checkVal_sString_eq]
        rcases checkStringVal_shape name l1 l2 l3 v e p with ⟨sv, hh⟩ | ⟨err, hh⟩
        · exact ⟨[], by rw [hh]; simp⟩
        · exact ⟨[err], by rw [hh]⟩
      | sBoolean name an opt =>
        rw [checkVal_sBoolean_eq]
        rcases checkBooleanVal_shape name an v e p with hh | ⟨err, hh⟩
        · exact ⟨[], by rw [hh]; simp⟩
        · exact ⟨[err], by rw [hh]⟩
      | sEnum name sym opt =>
        rw [checkVal_sEnum_eq]
        rcases checkEnumVal_shape name sym v e p with hh | ⟨err, hh⟩
        · exact ⟨[], by rw [hh]; simp⟩
        · exact ⟨[err], by rw [hh]⟩
      | sArray name et opt =>
        have hsz : schemaSize (Schema.sArray name et opt) = schemaSize et + 2 := rfl
        rw [checkVal_sArray_eq]
        rcases hA : asArray (arrayCoerced v) with _ | l
        · exact ⟨[_], rfl⟩
        · have hloop := (IH (3 * schemaSize et + 2) (by omega)).2.1 et (by omega)
          obtain ⟨t, ht⟩ := hloop l 0 true e
            (if p = "" then name ++ "[" else p ++ "." ++ name ++ "[")
          exact ⟨t, ht⟩
      | sObject name fields opt =>
        have hsz : schemaSize (Schema.sObject name fields opt)
            = schemaListSize fields + 2 := rfl
        rw [checkVal_sObject_eq]
        by_cases hty : typeofStr (objectCoerced v) ≠ "object"
        · rw [if_pos hty]
          exact ⟨[_], rfl⟩
        · rw [if_neg hty]
          have hseq := (IH (3 * schemaListSize fields + 6) (by omega)).2.2 fields (by omega)
          obtain ⟨t, ht⟩ := hseq true (objectCoerced v) e (buildPath p name)
          exact ⟨t, ht⟩
    · intro et het
      have hval : ∀ idx, MonoValP (setName et (natToDecimal idx)) := by
        intro idx
        exact (IH (3 * schemaSize et + 1) (by omega)).1 (setName et (natToDecimal idx))
          (by rw [schemaSize_setName]; omega)
      intro elems i valid e p
      suffices h : ∀ fuel elems2 i2 valid2 e2, elems2.length - i2 ≤ fuel →
          ∃ t, (checkElems et elems2 i2 valid2 e2 p).2.2 = e2 ++ t by
        exact h (elems.length - i) elems i valid e le_rfl
      intro fuel
      induction fuel with
      | zero =>
        intro elems2 i2 valid2 e2 hle
        rw [checkElems_stop et elems2 i2 valid2 e2 p (by omega)]
        exact ⟨[], by simp⟩
      | succ fuel ihf =>
        intro elems2 i2 valid2 e2 hle
        by_cases hi : i2 < elems2.length
        · rw [checkElems_step et elems2 i2 valid2 e2 p hi]
          cases valid2 with
          | false =>
            simp only [Bool.false_eq_true, if_false]
            exact ihf elems2 (i2 + 1) false e2 (by omega)
          | true =>
            simp only [if_true]
            obtain ⟨t1, ht1⟩ := hval i2 (elems2.getD i2 .vUndef) e2 p
            have hlen : (match (checkVal (setName et (natToDecimal i2))
                  (elems2.getD i2 .vUndef) e2 p).2.1 with
                | some w => elems2.set i2 w
                | none => elems2).length = elems2.length := by
              split <;> simp [List.length_set]
            obtain ⟨t2, ht2⟩ := ihf
              (match (checkVal (setName et (natToDecimal i2)) (elems2.getD i2 .vUndef) e2 p).2.1 with
                | some w => elems2.set i2 w
                | none => elems2)
              (i2 + 1)
              (checkVal (setName et (natToDecimal i2)) (elems2.getD i2 .vUndef) e2 p).1
              ((checkVal (setName et (natToDecimal i2)) (elems2.getD i2 .vUndef) e2 p).2.2)
              (by rw [hlen]; omega)
            exact ⟨t1 ++ t2, by rw [ht2, ht1, List.append_assoc]⟩
        · rw [checkElems_stop et elems2 i2 valid2 e2 p hi]
          exact ⟨[], by simp⟩
    · intro l hl
      cases l with
      | nil =>
        intro valid d e p
        rw [isValidSeq_nil]
        exact ⟨[], by simp⟩
      | cons s rest =>
        have hls : schemaListSize (s :: rest) = schemaSize s + 1 + schemaListSize rest := rfl
        intro valid d e p
        rw [isValidSeq_cons]
        cases valid with
        | false =>
          simp only [Bool.false_eq_true, if_false]
          exact (IH (3 * schemaListSize rest + 6) (by omega)).2.2 rest (by omega) false d e p
        | true =>
          simp only [if_true]
          obtain ⟨t1, ht1⟩ :=
            mono_one_of_val s ((IH (3 * schemaSize s + 1) (by omega)).1 s (by omega)) d e p
          obtain ⟨t2, ht2⟩ := (IH (3 * schemaListSize rest + 6) (by omega)).2.2 rest (by omega)
            (isValidOne s d e p).1 (isValidOne s d e p).2.1 ((isValidOne s d e p).2.2) p
          exact ⟨t1 ++ t2, by rw [ht2, ht1, List.append_assoc]⟩

theorem monoVal_all (s : Schema) : MonoValP s :=
  (mono_main (3 * schemaSize s + 1)).1 s (by omega)

theorem monoLoop_all (et : Schema) : MonoLoopP et :=
  (mono_main (3 * schemaSize et + 2)).2.1 et (by omega)

theorem monoSeq_all (l : List Schema) : MonoSeqP l :=
  (mono_main (3 * schemaListSize l + 6)).2.2 l (by omega)

theorem monoOne_all (s : Schema) : ∀ d e p, ∃ t, (isValidOne s d e p).2.2 = e ++ t :=
  mono_one_of_val s (monoVal_all s)

/-- Two stacked error-sink extensions that return to the original list are
both empty. -/
theorem append_two_nil {α : Type} (e t1 t2 : List α) (h : (e ++ t1) ++ t2 = e) :
    t1 = [] ∧ t2 = [] := by
  have hlen : ((e ++ t1) ++ t2).length = e.length := by rw [h]
  simp only [List.length_append] at hlen
  constructor
  · have h1 : t1.length = 0 := by omega
    exact List.length_eq_zero.mp h1
  · have h2 : t2.length = 0 := by omega
    exact List.length_eq_zero.mp h2

/-! ## C8 machinery: footprint of the container writes -/

theorem isValidOne_container (s : Schema) (d : JSValue) (e : List SchemaError) (p : String) :
    (isValidOne s d e p).2.1 = d ∨ ∃ w, (isValidOne s d e p).2.1 = setKey d (schemaName s) w := by
  rw [isValidOne_eq]
  by_cases hmiss : (!(hasKeyB d (schemaName s)) || isNullOrUndef (getKey d (schemaName s))) = true
  · simp only [hmiss, if_true]
    by_cases hopt : schemaOptional s = true
    · simp only [hopt, if_true]
      exact Or.inl trivial
    · have hopt' : schemaOptional s = false := by rwa [Bool.not_eq_true] at hopt
      simp only [hopt', Bool.false_eq_true, if_false]
      exact Or.inl trivial
  · have hmiss' :
        (!(hasKeyB d (schemaName s)) || isNullOrUndef (getKey d (schemaName s))) = false := by
      rwa [Bool.not_eq_true] at hmiss
    simp only [hmiss', Bool.false_eq_true, if_false]
    rcases hw : (checkVal s (getKey d (schemaName s)) e p).2.1 with _ | w
    · exact Or.inl rfl
    · exact Or.inr ⟨w, rfl⟩

theorem isValidOne_preserve (s : Schema) (d : JSValue) (e : List SchemaError) (p : String)
    (k : String) (hk : k ≠ schemaName s) :
    getKey ((isValidOne s d e p).2.1) k = getKey d k ∧
    hasKeyB ((isValidOne s d e p).2.1) k = hasKeyB d k := by
  rcases isValidOne_container s d e p with h | ⟨w, h⟩
  · rw [h]
    exact ⟨rfl, rfl⟩
  · rw [h]
    exact ⟨getKey_setKey_ne d _ k w hk, hasKeyB_setKey_ne d _ k w hk⟩

theorem isValidOne_typeof (s : Schema) (d : JSValue) (e : List SchemaError) (p : String) :
    typeofStr ((isValidOne s d e p).2.1) = typeofStr d := by
  rcases isValidOne_container s d e p with h | ⟨w, h⟩
  · rw [h]
  · rw [h]
    exact typeofStr_setKey d _ w

theorem isValidSeq_preserve (l : List Schema) :
    ∀ valid d e p k, (∀ s ∈ l, k ≠ schemaName s) →
      getKey ((isValidSeq l valid d e p).2.1) k = getKey d k ∧
      hasKeyB ((isValidSeq l valid d e p).2.1) k = hasKeyB d k := by
  induction l with
  | nil =>
    intro valid d e p k _
    rw [isValidSeq_nil]
    exact ⟨rfl, rfl⟩
  | cons s rest ih =>
    intro valid d e p k hk
    rw [isValidSeq_cons]
    cases valid with
    | false =>
      simp only [Bool.false_eq_true, if_false]
      exact ih false d e p k (fun s' hs' => hk s' (by simp [hs'])) 
    | true =>
      simp only [if_true]
      have h1 := isValidOne_preserve s d e p k (hk s (by simp))
      have h2 := ih (isValidOne s d e p).1 (isValidOne s d e p).2.1 ((isValidOne s d e p).2.2) p k
        (fun s' hs' => hk s' (by simp [hs']))
      exact ⟨h2.1.trans h1.1, h2.2.trans h1.2⟩

theorem isValidSeq_typeof (l : List Schema) :
    ∀ valid d e p, typeofStr ((isValidSeq l valid d e p).2.1) = typeofStr d := by
  induction l with
  | nil =>
    intro valid d e p
    rw [isValidSeq_nil]
  | cons s rest ih =>
    intro valid d e p
    rw [isValidSeq_cons]
    cases valid with
    | false =>
      simp only [Bool.false_eq_true, if_false]
      exact ih false d e p
    | true =>
      simp only [if_true]
      exact (ih (isValidOne s d e p).1 (isValidOne s d e p).2.1 ((isValidOne s d e p).2.2)
        p).trans (isValidOne_typeof s d e p)

theorem checkElems_frame (et : Schema) (p : String) :
    ∀ fuel elems i valid e, elems.length - i ≤ fuel →
      ((checkElems et elems i valid e p).2.1.length = elems.length ∧
       ∀ j, j < i →
         (checkElems et elems i valid e p).2.1.getD j .vUndef = elems.getD j .vUndef) := by
  intro fuel
  induction fuel with
  | zero =>
    intro elems i valid e hle
    rw [checkElems_stop et elems i valid e p (by omega)]
    exact ⟨rfl, fun j _ => rfl⟩
  | succ fuel ih =>
    intro elems i valid e hle
    by_cases hi : i < elems.length
    · rw [checkElems_step et elems i valid e p hi]
      cases valid with
      | false =>
        simp only [Bool.false_eq_true, if_false]
        obtain ⟨hl, hg⟩ := ih elems (i + 1) false e (by omega)
        exact ⟨hl, fun j hj => hg j (by omega)⟩
      | true =>
        simp only [if_true]
        have hlen : (match (checkVal (setName et (natToDecimal i))
              (elems.getD i .vUndef) e p).2.1 with
            | some w => elems.set i w
            | none => elems).length = elems.length := by
          split <;> simp [List.length_set]
        obtain ⟨hl, hg⟩ := ih
          (match (checkVal (setName et (natToDecimal i)) (elems.getD i .vUndef) e p).2.1 with
            | some w => elems.set i w
            | none => elems)
          (i + 1)
          (checkVal (setName et (natToDecimal i)) (elems.getD i .vUndef) e p).1
          ((checkVal (setName et (natToDecimal i)) (elems.getD i .vUndef) e p).2.2)
          (by rw [hlen]; omega)
        refine ⟨hl.trans hlen, fun j hj => (hg j (by omega)).trans ?_⟩
        rcases hw : (checkVal (setName et (natToDecimal i)) (elems.getD i .vUndef) e p).2.1
          with _ | w
        · rfl
        · exact getD_set_ne elems i j w .vUndef (by omega)
    · rw [checkElems_stop et elems i valid e p hi]
      exact ⟨rfl, fun j _ => rfl⟩

/-! ## C8 machinery: success inversions of the checkers -/

theorem checkNumVal_success (name : String) (kind : NumKind) (min max : Option Int) (v : JSValue)
    (e : List SchemaError) (p : String) (w : Option JSValue) (errs : List SchemaError)
    (h : checkNumVal name kind min max v e p = (true, w, errs)) :
    ∃ pv, parseByKind kind v = some pv ∧
      (numBoundActive min && ltOpt pv min) = false ∧
      (numBoundActive max && gtOpt pv max) = false ∧
      w = some (.vNum pv) ∧ errs = e := by
  simp only [checkNumVal] at h
  rcases hk : parseByKind kind v with _ | pv
  · rw [hk] at h
    simp [Prod.ext_iff] at h
  · rw [hk] at h
    by_cases h1 : (numBoundActive min && ltOpt pv min) = true
    · simp only [h1, if_true, Prod.ext_iff] at h
      simp at h
    · have h1' : (numBoundActive min && ltOpt pv min) = false := by
        rwa [Bool.not_eq_true] at h1
      simp only [h1', Bool.false_eq_true, if_false] at h
      by_cases h2 : (numBoundActive max && gtOpt pv max) = true
      · simp only [h2, if_true, Prod.ext_iff] at h
        simp at h
      · have h2' : (numBoundActive max && gtOpt pv max) = false := by
          rwa [Bool.not_eq_true] at h2
        simp only [h2', Bool.false_eq_true, if_false, Prod.ext_iff] at h
        exact ⟨pv, rfl, h1', h2', h.2.1.symm, h.2.2.symm⟩

theorem checkStringVal_success (name : String) (length min_length max_length : Option Int)
    (v : JSValue) (e : List SchemaError) (p : String) (w : Option JSValue)
    (errs : List SchemaError)
    (h : checkStringVal name length min_length max_length v e p = (true, w, errs)) :
    (lengthTruthy length && neOpt ((strOfVal v).length : Int) length) = false ∧
    (numBoundActive min_length && ltOpt ((strOfVal v).length : Int) min_length) = false ∧
    (numBoundActive max_length && gtOpt ((strOfVal v).length : Int) max_length) = false ∧
    w = some (.vStr (strOfVal v)) ∧ errs = e := by
  simp only [checkStringVal] at h
  by_cases h1 : (lengthTruthy length && neOpt ((strOfVal v).length : Int) length) = true
  · simp only [h1, if_true, Prod.ext_iff] at h
    simp at h
  · have h1' := (Bool.not_eq_true _).mp h1
    simp only [h1', Bool.false_eq_true, if_false] at h
    by_cases h2 : (numBoundActive min_length
        && ltOpt ((strOfVal v).length : Int) min_length) = true
    · simp only [h2, if_true, Prod.ext_iff] at h
      simp at h
    · have h2' := (Bool.not_eq_true _).mp h2
      simp only [h2', Bool.false_eq_true, if_false] at h
      by_cases h3 : (numBoundActive max_length
          && gtOpt ((strOfVal v).length : Int) max_length) = true
      · simp only [h3, if_true, Prod.ext_iff] at h
        simp at h
      · have h3' := (Bool.not_eq_true _).mp h3
        simp only [h3', Bool.false_eq_true, if_false, Prod.ext_iff] at h
        exact ⟨h1', h2', h3', h.2.1.symm, h.2.2.symm⟩

theorem checkBooleanVal_success (name : String) (an : Option Bool) (v : JSValue)
    (e : List SchemaError) (p : String) (w : Option JSValue) (errs : List SchemaError)
    (h : checkBooleanVal name an v e p = (true, w, errs)) :
    includesPrim (allowedBoolValues an) v = true ∧ w = some (boolCoerce v) ∧ errs = e := by
  simp only [checkBooleanVal] at h
  by_cases hin : includesPrim (allowedBoolValues an) v = true
  · simp only [hin, Bool.not_true, Bool.false_eq_true, if_false, Prod.ext_iff] at h
    exact ⟨hin, h.2.1.symm, h.2.2.symm⟩
  · have hin' := (Bool.not_eq_true _).mp hin
    simp only [hin', Bool.not_false, if_true, Prod.ext_iff] at h
    simp at h

theorem checkEnumVal_success (name : String) (symbols : EnumSymbols) (v : JSValue)
    (e : List SchemaError) (p : String) (w : Option JSValue) (errs : List SchemaError)
    (h : checkEnumVal name symbols v e p = (true, w, errs)) :
    w = none ∧ errs = e := by
  rcases checkEnumVal_shape name symbols v e p with hh | ⟨err, hh⟩
  · rw [hh] at h
    simp only [Prod.ext_iff] at h
    exact ⟨h.2.1.symm, h.2.2.symm⟩
  · rw [hh] at h
    simp [Prod.ext_iff] at h

/-! ## C8 machinery: written values are never `undefined` or surprise types -/

theorem typeof_object_ne_undef (x : JSValue) (h : typeofStr x = "object") : x ≠ .vUndef := by
  intro hx
  subst hx
  simp [typeofStr] at h

theorem includesPrim_allowed_not_undef (an : Option Bool) :
    includesPrim (allowedBoolValues an) .vUndef = false := by
  by_cases h : an = some false
  · subst h
    decide
  · have : allowedBoolValues an
        = [.vBool true, .vBool false, .vStr "true", .vStr "false"]
          ++ [.vNum 0, .vNum 1, .vStr "0", .vStr "1"] := by
      simp [allowedBoolValues, h]
    rw [this]
    decide

theorem boolCoerce_ne_undef (v : JSValue) (h : v ≠ .vUndef) : boolCoerce v ≠ .vUndef := by
  cases v with
  | vUndef => exact absurd rfl h
  | vStr s =>
    simp only [boolCoerce]
    split <;> simp
  | vNull => simp [boolCoerce]
  | vBool b => simp [boolCoerce]
  | vNum n => simp [boolCoerce]
  | vArr l => simp [boolCoerce]
  | vObj l => simp [boolCoerce]

theorem checkVal_write_ne_undef (s : Schema) (v : JSValue) (e : List SchemaError) (p : String)
    (b : Bool) (x : JSValue) (errs : List SchemaError)
    (hres : checkVal s v e p = (b, some x, errs)) : x ≠ .vUndef := by
  cases s with
  | sNum name kind min max opt =>
    rw [checkVal_sNum_eq] at hres
    rcases checkNumVal_shape name kind min max v e p with ⟨pv, hh⟩ | ⟨err, hh⟩ <;>
      rw [hh] at hres <;> simp [Prod.ext_iff] at hres
    rw [← hres.2.1]
    simp
  | sString name l1 l2 l3 opt =>
    rw [checkVal_sString_eq] at hres
    rcases checkStringVal_shape name l1 l2 l3 v e p with ⟨sv, hh⟩ | ⟨err, hh⟩ <;>
      rw [hh] at hres <;> simp [Prod.ext_iff] at hres
    rw [← hres.2.1]
    simp
  | sBoolean name an opt =>
    rw [checkVal_sBoolean_eq] at hres
    rcases checkBooleanVal_shape name an v e p with hh | ⟨err, hh⟩ <;>
      rw [hh] at hres <;> simp [Prod.ext_iff] at hres
    obtain ⟨hin, _, _⟩ := checkBooleanVal_success name an v e p _ _ hh
    have hv : v ≠ .vUndef := by
      intro hv
      subst hv
      rw [includesPrim_allowed_not_undef] at hin
      exact Bool.false_ne_true hin
    rw [← hres.2.1]
    exact boolCoerce_ne_undef v hv
  | sEnum name sym opt =>
    rw [checkVal_sEnum_eq] at hres
    rcases checkEnumVal_shape name sym v e p with hh | ⟨err, hh⟩ <;>
      rw [hh] at hres <;> simp [Prod.ext_iff] at hres
  | sArray name et opt =>
    rw [checkVal_sArray_eq] at hres
    rcases hA : asArray (arrayCoerced v) with _ | l <;> rw [hA] at hres <;>
      simp [Prod.ext_iff] at hres
    rw [← hres.2.1]
    simp
  | sObject name fields opt =>
    rw [checkVal_sObject_eq] at hres
    by_cases hty : typeofStr (objectCoerced v) ≠ "object"
    · rw [if_pos hty] at hres
      simp [Prod.ext_iff] at hres
    · rw [if_neg hty] at hres
      simp only [Prod.ext_iff] at hres
      have hty' : typeofStr (objectCoerced v) = "object" := by
        by_contra hc
        exact hty hc
      have htyx : typeofStr x = "object" := by
        have := isValidSeq_typeof fields true (objectCoerced v) e (buildPath p name)
        have hx : some ((isValidSeq fields true (objectCoerced v) e (buildPath p name)).2.1)
            = some x := hres.2.1
        rw [Option.some.injEq] at hx
        rw [← hx, this, hty']
      exact typeof_object_ne_undef x htyx

theorem includesPrim_vBool_true (an : Option Bool) :
    includesPrim (allowedBoolValues an) (.vBool true) = true := by
  by_cases h : an = some false
  · subst h
    decide
  · have hl : allowedBoolValues an
        = [.vBool true, .vBool false, .vStr "true", .vStr "false",
           .vNum 0, .vNum 1, .vStr "0", .vStr "1"] := by
      simp [allowedBoolValues, h]
    rw [hl]
    decide

theorem boolCoerce_mem_idem (an : Option Bool) (v : JSValue)
    (h : includesPrim (allowedBoolValues an) v = true) :
    includesPrim (allowedBoolValues an) (boolCoerce v) = true ∧
      boolCoerce (boolCoerce v) = boolCoerce v := by
  cases v with
  | vStr s =>
    by_cases hs : (s = "true" || s = "1") = true
    · have hb : boolCoerce (.vStr s) = .vBool true := by
        simp only [boolCoerce, hs, if_true]
      rw [hb]
      exact ⟨includesPrim_vBool_true an, rfl⟩
    · have hs' := (Bool.not_eq_true _).mp hs
      have hb : boolCoerce (.vStr s) = .vStr s := by
        simp only [boolCoerce, hs', Bool.false_eq_true, if_false]
      rw [hb]
      exact ⟨h, hb⟩
  | vUndef => exact ⟨h, rfl⟩
  | vNull => exact ⟨h, rfl⟩
  | vBool b => exact ⟨h, rfl⟩
  | vNum n => exact ⟨h, rfl⟩
  | vArr l => exact ⟨h, rfl⟩
  | vObj l => exact ⟨h, rfl⟩

/-! ## C8 machinery: null-freedom and unique-name facts -/

theorem deepNoNullListB_mem (l : List JSValue) (h : deepNoNullListB l = true) :
    ∀ x ∈ l, deepNoNullB x = true := by
  induction l with
  | nil => intro x hx; simp at hx
  | cons a t ih =>
    intro x hx
    rw [deepNoNullListB.eq_def] at h
    simp only [Bool.and_eq_true] at h
    rcases List.mem_cons.mp hx with rfl | hx'
    · exact h.1
    · exact ih h.2 x hx'

theorem deepNoNullPairsB_get (l : List (String × JSValue)) (k : String)
    (h : deepNoNullPairsB l = true) (hk : hasPairs l k = true) :
    deepNoNullB (getPairs l k) = true := by
  induction l with
  | nil => simp [hasPairs] at hk
  | cons a t ih =>
    rcases a with ⟨k0, x⟩
    rw [deepNoNullPairsB.eq_def] at h
    simp only [Bool.and_eq_true] at h
    by_cases hk0 : k0 = k
    · simp [getPairs, hk0]
      exact h.1
    · simp only [hasPairs, hk0, if_false] at hk
      simp only [getPairs, hk0, if_false]
      exact ih h.2 hk

theorem valuesNoNullB_get (d : JSValue) (k : String) (h : valuesNoNullB d = true)
    (hk : hasKeyB d k = true) : deepNoNullB (getKey d k) = true := by
  cases d <;> simp [hasKeyB] at hk
  simp only [valuesNoNullB] at h
  simp only [getKey]
  exact deepNoNullPairsB_get _ k h hk

theorem deepNoNullB_values (d : JSValue) (h : deepNoNullB d = true) :
    valuesNoNullB d = true := by
  cases d <;> simp_all [deepNoNullB, valuesNoNullB]

theorem deepNoNullB_arr_mem (l : List JSValue) (h : deepNoNullB (.vArr l) = true) :
    ∀ x ∈ l, deepNoNullB x = true := by
  rw [deepNoNullB.eq_def] at h
  exact deepNoNullListB_mem l h

theorem deepNoNullB_ne_null (x : JSValue) (h : deepNoNullB x = true) : x ≠ .vNull := by
  intro hx
  subst hx
  rw [deepNoNullB.eq_def] at h
  exact Bool.false_ne_true h

theorem isNullOrUndef_false_of (x : JSValue) (h1 : x ≠ .vNull) (h2 : x ≠ .vUndef) :
    isNullOrUndef x = false := by
  cases x with
  | vNull => exact absurd rfl h1
  | vUndef => exact absurd rfl h2
  | vBool b => rfl
  | vNum n => rfl
  | vStr s => rfl
  | vArr l => rfl
  | vObj l => rfl

theorem uniqueNamesListB_cons_inv (s : Schema) (rest : List Schema)
    (h : uniqueNamesListB (s :: rest) = true) :
    ((rest.map schemaName).contains (schemaName s)) = false ∧ uniqueNamesB s = true ∧
      uniqueNamesListB rest = true := by
  rw [uniqueNamesListB.eq_def] at h
  simp only [Bool.and_eq_true, Bool.not_eq_eq_eq_not, Bool.not_true] at h
  exact ⟨h.1.1, h.1.2, h.2⟩

theorem contains_false_names (l : List Schema) (nm : String)
    (h : ((l.map schemaName).contains nm) = false) : ∀ s' ∈ l, schemaName s' ≠ nm := by
  intro s' hs' heq
  have hmem : nm ∈ l.map schemaName := List.mem_map.mpr ⟨s', hs', heq⟩
  have hc : (l.map schemaName).contains nm = true := List.elem_iff.mpr hmem
  rw [h] at hc
  exact Bool.false_ne_true hc

theorem parseByKind_vNum (kind : NumKind) (n : Int) : parseByKind kind (.vNum n) = some n := by
  cases kind <;>
    simp [parseByKind, jsToString, jsParseInt_intToDecimal, jsParseFloat_intToDecimal]

theorem getD_mem (l : List JSValue) (i : Nat) (h : i < l.length) : l.getD i .vUndef ∈ l := by
  induction l generalizing i with
  | nil => simp at h
  | cons a t ih =>
    cases i with
    | zero => simp [List.getD]
    | succ j =>
      simp only [List.length_cons] at h
      simp only [List.getD_cons_succ]
      exact List.mem_cons_of_mem a (ih j (by omega))

theorem strOfVal_vStr (t : String) : strOfVal (.vStr t) = t := rfl

theorem uniqueNamesB_sArray (n : String) (et : Schema) (o : Bool) :
    uniqueNamesB (.sArray n et o) = uniqueNamesB et := by
  rw [uniqueNamesB.eq_def]

theorem uniqueNamesB_sObject (n : String) (fields : List Schema) (o : Bool) :
    uniqueNamesB (.sObject n fields o) = uniqueNamesListB fields := by
  rw [uniqueNamesB.eq_def]

/-! ## C8: the main idempotence induction

A successful run that leaves the error sink untouched, re-run on the bag it
produced, reproduces exactly that bag (provided sibling names are unique and
the produced bag holds no `null`).  The three mutual statements are proved
together by strong induction on a flattened size measure, exactly as for
`mono_main`. -/

theorem idem_main : ∀ N : Nat,
    (∀ s, 3 * schemaSize s < N → IdValP s) ∧
    (∀ et, 3 * schemaSize et + 1 < N → IdLoopP et) ∧
    (∀ l, 3 * schemaListSize l + 5 < N → IdSeqP l) := by
  intro N
  induction N using Nat.strong_induction_on with
  | _ N IH =>
    refine ⟨?_, ?_, ?_⟩
    · -- IdValP
      intro s hs v e p w huniq hrun hnn
      cases s with
      | sNum name kind min max opt =>
        rw [checkVal_sNum_eq] at hrun ⊢
        obtain ⟨pv, hk, h1, h2, hw, -⟩ :=
          checkNumVal_success name kind min max v e p w e hrun
        subst hw
        simp only [Option.getD_some]
        simp only [checkNumVal, parseByKind_vNum, h1, h2, Bool.false_eq_true, if_false]
      | sString name l1 l2 l3 opt =>
        rw [checkVal_sString_eq] at hrun ⊢
        obtain ⟨h1, h2, h3, hw, -⟩ :=
          checkStringVal_success name l1 l2 l3 v e p w e hrun
        subst hw
        simp only [Option.getD_some]
        simp only [checkStringVal, strOfVal_vStr, h1, h2, h3, Bool.false_eq_true, if_false]
      | sBoolean name an opt =>
        rw [checkVal_sBoolean_eq] at hrun ⊢
        obtain ⟨hin, hw, -⟩ := checkBooleanVal_success name an v e p w e hrun
        subst hw
        obtain ⟨hmem, hidem⟩ := boolCoerce_mem_idem an v hin
        simp only [Option.getD_some]
        simp only [checkBooleanVal, hmem, Bool.not_true, Bool.false_eq_true, if_false, hidem]
      | sEnum name sym opt =>
        have hrun' := hrun
        rw [checkVal_sEnum_eq] at hrun'
        obtain ⟨hw, -⟩ := checkEnumVal_success name sym v e p w e hrun'
        subst hw
        exact hrun
      | sArray name et opt =>
        have hsz : schemaSize (Schema.sArray name et opt) = schemaSize et + 2 := rfl
        rw [checkVal_sArray_eq] at hrun ⊢
        rcases hA : asArray (arrayCoerced v) with _ | l
        · rw [hA] at hrun
          simp [Prod.ext_iff] at hrun
        · rw [hA] at hrun
          dsimp only at hrun
          rcases hE : checkElems et l 0 true e
              (if p = "" then name ++ "[" else p ++ "." ++ name ++ "[") with ⟨b1, L2, e2⟩
          rw [hE] at hrun
          dsimp only at hrun
          simp only [Prod.mk.injEq] at hrun
          obtain ⟨hb1, hwv, he2⟩ := hrun
          subst hb1
          subst hwv
          rw [he2] at hE
          simp only [Option.getD_some] at hnn ⊢
          have hu' : uniqueNamesB et = true := by
            rw [← uniqueNamesB_sArray name et opt]
            exact huniq
          have hloop := (IH (3 * schemaSize et + 2) (by omega)).2.1 et (by omega)
          have hre := hloop l 0 e
            (if p = "" then name ++ "[" else p ++ "." ++ name ++ "[") L2 hu' hE
            (deepNoNullB_arr_mem L2 hnn)
          simp only [arrayCoerced, asArray]
          rw [hre]
      | sObject name fields opt =>
        have hsz : schemaSize (Schema.sObject name fields opt) = schemaListSize fields + 2 := rfl
        rw [checkVal_sObject_eq] at hrun ⊢
        by_cases hty : typeofStr (objectCoerced v) ≠ "object"
        · rw [if_pos hty] at hrun
          simp [Prod.ext_iff] at hrun
        · rw [if_neg hty] at hrun
          have hty' : typeofStr (objectCoerced v) = "object" := not_not.mp hty
          rcases hS : isValidSeq fields true (objectCoerced v) e (buildPath p name)
            with ⟨b1, dd2, e2⟩
          rw [hS] at hrun
          dsimp only at hrun
          simp only [Prod.mk.injEq] at hrun
          obtain ⟨hb1, hwv, he2⟩ := hrun
          subst hb1
          subst hwv
          rw [he2] at hS
          simp only [Option.getD_some] at hnn ⊢
          have htyd : typeofStr dd2 = "object" := by
            have h0 := isValidSeq_typeof fields true (objectCoerced v) e (buildPath p name)
            rw [hS] at h0
            dsimp only at h0
            rw [h0, hty']
          have hoc : objectCoerced dd2 = dd2 := by
            simp [objectCoerced, htyd]
          have hu' : uniqueNamesListB fields = true := by
            rw [← uniqueNamesB_sObject name fields opt]
            exact huniq
          have hseq := (IH (3 * schemaListSize fields + 6) (by omega)).2.2 fields (by omega)
          have hre := hseq (objectCoerced v) e (buildPath p name) dd2 hu' hS
            (deepNoNullB_values dd2 hnn)
          have hty2 : ¬(typeofStr (objectCoerced dd2) ≠ "object") := by
            rw [hoc, htyd]
            exact fun hc => hc rfl
          rw [if_neg hty2, hoc, hre]
    · -- IdLoopP
      intro et het
      have hval : ∀ idx : Nat, IdValP (setName et (natToDecimal idx)) := by
        intro idx
        exact (IH (3 * schemaSize et + 1) (by omega)).1 (setName et (natToDecimal idx))
          (by rw [schemaSize_setName]; omega)
      intro elems0 i0 e p l2 huniq hrun0 hnn
      have hu' : ∀ idx : Nat, uniqueNamesB (setName et (natToDecimal idx)) = true := by
        intro idx
        rw [uniqueNamesB_setName]
        exact huniq
      suffices h : ∀ fuel elems i, elems.length - i ≤ fuel →
          checkElems et elems i true e p = (true, l2, e) →
          checkElems et l2 i true e p = (true, l2, e) by
        exact h (elems0.length - i0) elems0 i0 le_rfl hrun0
      intro fuel
      induction fuel with
      | zero =>
        intro elems i hle hrun
        rw [checkElems_stop et elems i true e p (by omega)] at hrun
        simp only [Prod.mk.injEq] at hrun
        obtain ⟨-, hl2, -⟩ := hrun
        subst hl2
        exact checkElems_stop et elems i true e p (by omega)
      | succ fuel ihf =>
        intro elems i hle hrun
        by_cases hi : i < elems.length
        · rw [checkElems_step et elems i true e p hi] at hrun
          simp only [if_true] at hrun
          rcases hC : checkVal (setName et (natToDecimal i)) (elems.getD i .vUndef) e p
            with ⟨cb, cw, ce⟩
          rw [hC] at hrun
          dsimp only at hrun
          cases cb with
          | false =>
            rcases cw with _ | wv
            · dsimp only at hrun
              rw [checkElems_false et elems.length elems (i+1) ce p (by omega)] at hrun
              simp [Prod.ext_iff] at hrun
            · dsimp only at hrun
              rw [checkElems_false et (elems.set i wv).length (elems.set i wv) (i+1) ce p
                (by omega)] at hrun
              simp [Prod.ext_iff] at hrun
          | true =>
            rcases cw with _ | wv
            · dsimp only at hrun
              obtain ⟨t1, ht1⟩ :=
                monoVal_all (setName et (natToDecimal i)) (elems.getD i .vUndef) e p
              rw [hC] at ht1
              dsimp only at ht1
              obtain ⟨t2, ht2⟩ := monoLoop_all et elems (i+1) true ce p
              rw [hrun] at ht2
              dsimp only at ht2
              rw [ht1] at ht2
              obtain ⟨ht1n, -⟩ := append_two_nil e t1 t2 ht2.symm
              have hce : ce = e := by rw [ht1, ht1n, List.append_nil]
              rw [hce] at hrun hC
              obtain ⟨hfl, hfg⟩ := checkElems_frame et p elems.length elems (i+1) true e
                (by omega)
              rw [hrun] at hfl hfg
              dsimp only at hfl hfg
              have hi2 : i < l2.length := by omega
              have hl2i : l2.getD i .vUndef = elems.getD i .vUndef := hfg i (by omega)
              have htail := ihf elems (i+1) (by omega) hrun
              rw [checkElems_step et l2 i true e p hi2]
              simp only [if_true]
              rw [hl2i, hC]
              dsimp only
              exact htail
            · dsimp only at hrun
              obtain ⟨t1, ht1⟩ :=
                monoVal_all (setName et (natToDecimal i)) (elems.getD i .vUndef) e p
              rw [hC] at ht1
              dsimp only at ht1
              obtain ⟨t2, ht2⟩ := monoLoop_all et (elems.set i wv) (i+1) true ce p
              rw [hrun] at ht2
              dsimp only at ht2
              rw [ht1] at ht2
              obtain ⟨ht1n, -⟩ := append_two_nil e t1 t2 ht2.symm
              have hce : ce = e := by rw [ht1, ht1n, List.append_nil]
              rw [hce] at hrun hC
              obtain ⟨hfl, hfg⟩ := checkElems_frame et p (elems.set i wv).length
                (elems.set i wv) (i+1) true e (by omega)
              rw [hrun] at hfl hfg
              dsimp only at hfl hfg
              have hlenset : (elems.set i wv).length = elems.length := by
                simp [List.length_set]
              have hi2 : i < l2.length := by omega
              have hl2i : l2.getD i .vUndef = wv := by
                rw [hfg i (by omega)]
                exact getD_set_self elems i wv .vUndef hi
              have hwnn : deepNoNullB wv = true := by
                have hm := hnn (l2.getD i .vUndef) (getD_mem l2 i hi2)
                rwa [hl2i] at hm
              have hIdv := hval i (elems.getD i .vUndef) e p (some wv) (hu' i) hC
                (by simpa using hwnn)
              simp only [Option.getD_some] at hIdv
              have htail := ihf (elems.set i wv) (i+1) (by omega) hrun
              rw [checkElems_step et l2 i true e p hi2]
              simp only [if_true]
              rw [hl2i, hIdv]
              dsimp only
              have hset : l2.set i wv = l2 := by
                rw [← hl2i]
                exact set_getD_self l2 i .vUndef hi2
              rw [hset]
              exact htail
        · rw [checkElems_stop et elems i true e p hi] at hrun
          simp only [Prod.mk.injEq] at hrun
          obtain ⟨-, hl2, -⟩ := hrun
          subst hl2
          exact checkElems_stop et elems i true e p hi
    · -- IdSeqP
      intro l hl
      cases l with
      | nil =>
        intro d e p d2 _ hrun _
        rw [isValidSeq_nil] at hrun
        simp only [Prod.mk.injEq] at hrun
        obtain ⟨-, hd, -⟩ := hrun
        subst hd
        rw [isValidSeq_nil]
      | cons s rest =>
        have hls : schemaListSize (s :: rest) = schemaSize s + 1 + schemaListSize rest := rfl
        intro d e p d2 huniq hrun hnn
        obtain ⟨hcont, hus, hurest⟩ := uniqueNamesListB_cons_inv s rest huniq
        have hnames := contains_false_names rest (schemaName s) hcont
        rw [isValidSeq_cons] at hrun
        simp only [if_true] at hrun
        rcases hO : isValidOne s d e p with ⟨b1, d1, e1⟩
        rw [hO] at hrun
        dsimp only at hrun
        cases b1 with
        | false =>
          rw [isValidSeq_false rest d1 e1 p] at hrun
          simp [Prod.ext_iff] at hrun
        | true =>
          obtain ⟨t1, ht1⟩ := monoOne_all s d e p
          rw [hO] at ht1
          dsimp only at ht1
          obtain ⟨t2, ht2⟩ := monoSeq_all rest true d1 e1 p
          rw [hrun] at ht2
          dsimp only at ht2
          rw [ht1] at ht2
          obtain ⟨ht1n, -⟩ := append_two_nil e t1 t2 ht2.symm
          have he1 : e1 = e := by rw [ht1, ht1n, List.append_nil]
          rw [he1] at hrun hO
          have hrest := (IH (3 * schemaListSize rest + 6) (by omega)).2.2 rest (by omega)
          have htail := hrest d1 e p d2 hurest hrun hnn
          have hpre := isValidSeq_preserve rest true d1 e p (schemaName s)
            (fun s' hs' => Ne.symm (hnames s' hs'))
          rw [hrun] at hpre
          dsimp only at hpre
          obtain ⟨hgk, hhk⟩ := hpre
          rw [isValidOne_eq] at hO
          by_cases hmiss :
              (!(hasKeyB d (schemaName s)) || isNullOrUndef (getKey d (schemaName s))) = true
          · simp only [hmiss, if_true] at hO
            by_cases hopt : schemaOptional s = true
            · simp only [hopt, if_true] at hO
              simp only [Prod.mk.injEq] at hO
              obtain ⟨-, hd1, -⟩ := hO
              rw [isValidSeq_cons]
              simp only [if_true]
              have hO2 : isValidOne s d2 e p = (true, d2, e) := by
                rw [isValidOne_eq]
                have hmiss2 : (!(hasKeyB d2 (schemaName s))
                    || isNullOrUndef (getKey d2 (schemaName s))) = true := by
                  rw [hhk, hgk, ← hd1]
                  exact hmiss
                simp only [hmiss2, if_true, hopt, if_true]
              rw [hO2]
              dsimp only
              exact htail
            · have hopt' := (Bool.not_eq_true _).mp hopt
              simp only [hopt', Bool.false_eq_true, if_false] at hO
              simp [Prod.ext_iff] at hO
          · have hmiss' := (Bool.not_eq_true _).mp hmiss
            simp only [hmiss', Bool.false_eq_true, if_false] at hO
            have hhk0 : hasKeyB d (schemaName s) = true := by
              cases h2 : hasKeyB d (schemaName s) with
              | false =>
                rw [h2] at hmiss'
                simp at hmiss'
              | true => rfl
            have hnl0 : isNullOrUndef (getKey d (schemaName s)) = false := by
              cases h2 : isNullOrUndef (getKey d (schemaName s)) with
              | false => rfl
              | true =>
                rw [h2] at hmiss'
                simp at hmiss'
            rcases hF : checkVal s (getKey d (schemaName s)) e p with ⟨cb, cw, ce⟩
            rw [hF] at hO
            dsimp only at hO
            simp only [Prod.mk.injEq] at hO
            obtain ⟨hcb, hd1, hce⟩ := hO
            subst hcb
            rw [hce] at hF
            rcases cw with _ | w
            · dsimp only at hd1
              rw [isValidSeq_cons]
              simp only [if_true]
              have hhk2 : hasKeyB d2 (schemaName s) = true := by
                rw [hhk, ← hd1]
                exact hhk0
              have hgk2 : getKey d2 (schemaName s) = getKey d (schemaName s) := by
                rw [hgk, ← hd1]
              have hO2 : isValidOne s d2 e p = (true, d2, e) := by
                rw [isValidOne_eq]
                have hmiss2 : (!(hasKeyB d2 (schemaName s))
                    || isNullOrUndef (getKey d2 (schemaName s))) = false := by
                  rw [hhk2, hgk2, hnl0]
                  rfl
                simp only [hmiss2, Bool.false_eq_true, if_false]
                rw [hgk2, hF]
              rw [hO2]
              dsimp only
              exact htail
            · dsimp only at hd1
              rw [isValidSeq_cons]
              simp only [if_true]
              have hhk2 : hasKeyB d2 (schemaName s) = true := by
                rw [hhk, ← hd1]
                exact hasKeyB_setKey_self d (schemaName s) w hhk0
              have hgk2 : getKey d2 (schemaName s) = w := by
                rw [hgk, ← hd1]
                exact getKey_setKey_self d (schemaName s) w hhk0
              have hwnn : deepNoNullB w = true := by
                have hv2 := valuesNoNullB_get d2 (schemaName s) hnn hhk2
                rwa [hgk2] at hv2
              have hwnl : w ≠ .vNull := deepNoNullB_ne_null w hwnn
              have hwnu : w ≠ .vUndef :=
                checkVal_write_ne_undef s (getKey d (schemaName s)) e p true w e hF
              have hwno : isNullOrUndef w = false := isNullOrUndef_false_of w hwnl hwnu
              have hIdv := (IH (3 * schemaSize s + 1) (by omega)).1 s (by omega)
                (getKey d (schemaName s)) e p (some w) hus hF (by simpa using hwnn)
              simp only [Option.getD_some] at hIdv
              have hO2 : isValidOne s d2 e p = (true, d2, e) := by
                rw [isValidOne_eq]
                have hmiss2 : (!(hasKeyB d2 (schemaName s))
                    || isNullOrUndef (getKey d2 (schemaName s))) = false := by
                  rw [hhk2, hgk2, hwno]
                  rfl
                simp only [hmiss2, Bool.false_eq_true, if_false]
                rw [hgk2, hIdv]
                dsimp only
                rw [← hgk2, setKey_getKey_self d2 (schemaName s) hhk2]
              rw [hO2]
              dsimp only
              exact htail

theorem idemSeq_all (l : List Schema) : IdSeqP l :=
  (idem_main (3 * schemaListSize l + 6)).2.2 l (by omega)

/-- C8 (amended): coercion idempotence holds under the spec's own §3
invariant that sibling `name`s are unique within every containing sequence,
provided additionally that the coerced bag stores no `null` value (a field
whose raw value coerces to `null` — e.g. the string `"null"` under an object
schema — trips the presence gate on the second run, so idempotence cannot
hold for it): if validating a bag succeeds and leaves the error sink
untouched, then re-validating the coerced bag it produced succeeds again,
reproduces exactly the same bag, and leaves the error sink untouched too. -/
theorem c8_amended_idempotence_unique_names_null_free
    (l : List Schema) (d d2 : JSValue) (e : List SchemaError) (p : String)
    (hu : uniqueNamesListB l = true)
    (h1 : isValid l d e p = (true, d2, e))
    (hnn : valuesNoNullB d2 = true) :
    isValid l d2 e p = (true, d2, e) := by
  unfold isValid at h1 ⊢
  exact idemSeq_all l d e p d2 hu h1 hnn

section ConcreteEvaluationIdem

attribute [local simp] isValid isValidSeq isValidOne checkVal checkNumVal checkStringVal
  parseByKind strOfVal
  checkBooleanVal checkEnumVal checkElems asArray arrayCoerced objectCoerced getKey setKey
  hasKeyB getPairs setPairs hasPairs schemaName schemaTypeStr schemaOptional numKindStr setName
  isNullOrUndef pushError buildPath endsWithOpenBracket numBoundActive ltOpt gtOpt neOpt
  lengthTruthy allowedBoolValues includesPrim jvPrimEq boolCoerce symContains symJoin typeofStr
  jsToString jsJoinList jsonStringify jsonStringifyItems jsonStringifyProps escapeJSON
  escapeJSONChar intToDecimal digitVal readDigits parseUnsigned
  jsParseInt jsParseIntChars jsParseFloat jsParseFloatChars jsParseFloatBody jsonParse pValue
  pItems pMembers pNumber pNumberTail pStringChars escCharMap hexVal isHexDigitChar skipWs
  isJSONWs isPrimitiveSchema uniqueNamesB uniqueNamesListB deepNoNullB deepNoNullListB
  deepNoNullPairsB valuesNoNullB

theorem c8_amended_idempotence_witness :
    uniqueNamesListB [Schema.sNum "n" .int none none false] = true ∧
    isValid [Schema.sNum "n" .int none none false]
        (JSValue.vObj [("n", JSValue.vStr "5")]) [] ""
      = (true, JSValue.vObj [("n", JSValue.vNum 5)], []) ∧
    valuesNoNullB (JSValue.vObj [("n", JSValue.vNum 5)]) = true ∧
    isValid [Schema.sNum "n" .int none none false]
        (JSValue.vObj [("n", JSValue.vNum 5)]) [] ""
      = (true, JSValue.vObj [("n", JSValue.vNum 5)], []) := by
  refine ⟨by simp, by simp, by simp, ?_⟩
  exact c8_amended_idempotence_unique_names_null_free
    [Schema.sNum "n" .int none none false]
    (JSValue.vObj [("n", JSValue.vStr "5")]) (JSValue.vObj [("n", JSValue.vNum 5)]) [] ""
    (by simp) (by simp) (by simp)

end ConcreteEvaluationIdem
